import Mathlib

/-!
# Uniform/varying analysis and mask propagation of the wide (batched) OSL backend

Shallow embedding of `BackendLLVMWide::discoverVaryingAndMaskingOfLayer` and its
helpers (`src/src/liboslexec/backendllvm_wide.cpp`): the structured walk
`discoverSymbolsBetween`, the mask planner `ensureWritesAtLowerDepthAreMasked`,
the varying propagation `recursivelyMarkNonUniform`, the shader-global
uniformity table `IsShaderGlobalUniformByName`, and the query `isSymbolUniform`.

Conventions of the embedding:
* A C++ `Symbol*` is modelled as a `Symbol` record carrying an `id` field; the
  pointer comparisons of the source become structural equality of the records
  (an IR author gives distinct symbols distinct `id`s, playing the role of
  distinct addresses).
* The C++ `unordered_map`s keyed by `Symbol*` are modelled as association
  lists (`alookup` / `aset`); `operator[]`'s insert-on-absence is written out
  explicitly at each use site, as in the source.
* `std::unordered_multimap` `symbolFeedForwardMap` is modelled as the list of
  inserted `(parent, dependent)` pairs, in insertion order.
* `ASSERT(...)` aborts the analysis; this is modelled by returning
  `Except.error` with a tag naming the assertion.  Recursion of the C++
  lambdas is modelled with explicit fuel; exhaustion is the error `outOfFuel`.
-/

namespace OSLWide

/-- Symbol classes (`SymTypeGlobal`, `SymTypeParam`, ... of the OSL IR).
Modelled from the spec: the symbol-class tag of the data model
(`Global, Param, OutputParam, Local, Temp, Const`); the tag type itself is
declared outside the provided source file. -/
inductive SymType where
  | Global
  | Param
  | OutputParam
  | Local
  | Temp
  | Const
deriving DecidableEq, Repr

/-- Modelled from the spec: the symbol record of the IR view (declared outside
the provided source file; only its accessors are used by the analysis).  The
`id` field stands for the stable pointer identity of the C++ `Symbol*`; the
remaining fields are the accessors the analysis reads: `name()`, `symtype()`,
`connected()`, `connected_down()`, `everread()`, `renderer_output()`,
`lockgeom()`, `has_init_ops()` with `initbegin()`/`initend()`,
`valuesource() == DefaultVal`, `typespec().is_structure()`, `is_constant()`,
`typespec().is_closure_based()`, `typespec().is_string_based()`,
`typespec().is_closure()`. -/
structure Symbol where
  id : Nat
  name : String
  symtype : SymType
  connected : Bool := false
  connected_down : Bool := false
  everread : Bool := true
  renderer_output : Bool := false
  lockgeom : Bool := true
  has_init_ops : Bool := false
  initbegin : Nat := 0
  initend : Nat := 0
  valuesource_default : Bool := false
  is_structure : Bool := false
  is_constant : Bool := false
  is_closure_based : Bool := false
  is_string_based : Bool := false
  is_closure : Bool := false
deriving DecidableEq, Repr

/-- Modelled from the spec: one op argument, `(symbol, reads?, writes?)`
(`opargsym`, `argread`, `argwrite`). -/
structure OpArg where
  sym : Symbol
  read : Bool
  write : Bool
deriving DecidableEq, Repr

/-- Modelled from the spec: an op of the IR view: interned opcode name,
argument list, and up to four structured jump targets (-1 = unused). -/
structure Opcode where
  opname : String
  args : List OpArg
  jumps : List Int := []
deriving DecidableEq, Repr

/-- `Opcode::jump(i)`: the i-th jump target, -1 when absent.
Modelled from the spec (jump-target table of the data model). -/
def Opcode.jump (o : Opcode) (i : Nat) : Int :=
  o.jumps.getD i (-1)

/-- `Opcode::farthest_jump()`: the largest jump target; -1 for straight-line
ops.  Modelled from the spec: "`farthest_jump()` returns the largest valid
target and bounds the op's structured extent", "-1 for straight-line ops". -/
def Opcode.farthest_jump (o : Opcode) : Int :=
  o.jumps.foldl max (-1)

/-- Modelled from the spec: the read-only IR view of one layer: the symbol
table, the op stream, `maincodebegin()`/`maincodeend()`, plus the two shading
system options consulted by the analysis (`shadingsys().debug_uninit()` and
`shadingsys().lazy_userdata()`). -/
structure LayerIR where
  symbols : List Symbol
  ops : List Opcode
  maincodebegin : Nat
  maincodeend : Nat
  debug_uninit : Bool := false
  lazy_userdata : Bool := false
deriving DecidableEq, Repr

/-- Error outcomes of the model.  Each `assert...` constructor names one
`ASSERT` site of the source; `outOfFuel` models non-termination of the
C++ walk on malformed jump structures. -/
inductive Err where
  | outOfFuel
  | opIndexOutOfRange
  | argIndexOutOfRange
  | assertPendingEmpty
  | assertSingleCondRead
  | assertPopMismatch
  | assertLoopPopMismatch
  | assertLoopStackEmpty
  | assertLoopCondNotFound
  | assertUnhandledJumpOp
  | assertRequiresMaskingNotEmpty
  | assertIsUniformTableEmpty
deriving DecidableEq, Repr

/-! ## Association lists (model of the pointer-keyed `unordered_map`s) -/

/-- Lookup in an association list (model of `unordered_map::find`). -/
def alookup {α β : Type} [DecidableEq α] : List (α × β) → α → Option β
  | [], _ => none
  | (k', v) :: rest, k => if k' = k then some v else alookup rest k

/-- Insert-or-assign in an association list (model of `map[key] = value`):
replaces the value of an existing key in place, appends a new key at the
end. -/
def aset {α β : Type} [DecidableEq α] : List (α × β) → α → β → List (α × β)
  | [], k, v => [(k, v)]
  | (k', v') :: rest, k, v =>
      if k' = k then (k, v) :: rest else (k', v') :: aset rest k v

theorem alookup_aset_self {α β : Type} [DecidableEq α]
    (m : List (α × β)) (k : α) (v : β) : alookup (aset m k v) k = some v := by
  induction m with
  | nil => simp [aset, alookup]
  | cons p rest ih =>
      by_cases h : p.1 = k
      · simp [aset, h, alookup]
      · simp [aset, h, alookup, ih]

theorem alookup_aset_ne {α β : Type} [DecidableEq α]
    (m : List (α × β)) (k k' : α) (v : β) (h : k' ≠ k) :
    alookup (aset m k v) k' = alookup m k' := by
  induction m with
  | nil => simp [aset, alookup, Ne.symm h]
  | cons p rest ih =>
      by_cases hk : p.1 = k
      · subst hk
        simp [aset, alookup, Ne.symm h]
      · by_cases hk' : p.1 = k'
        · simp [aset, alookup, hk, hk', h]
        · simp [aset, alookup, hk, hk', ih]

theorem alookup_aset_isSome {α β : Type} [DecidableEq α]
    (m : List (α × β)) (k k' : α) (v : β) (h : (alookup m k').isSome) :
    (alookup (aset m k v) k').isSome := by
  by_cases hk : k' = k
  · subst hk; simp [alookup_aset_self]
  · rwa [alookup_aset_ne _ _ _ _ hk]

theorem aset_eq_of_alookup_eq {α β : Type} [DecidableEq α]
    (m : List (α × β)) (k : α) (v : β) (h : alookup m k = some v) :
    aset m k v = m := by
  induction m with
  | nil => simp [alookup] at h
  | cons p rest ih =>
      by_cases hk : p.1 = k
      · subst hk
        simp [alookup] at h
        simp [aset, h.symm]
      · simp [alookup, hk] at h
        simp [aset, hk, ih h]

/-! ## Fold over an `Except`-returning body (the C++ `for` loops whose bodies
may abort through an `ASSERT`). -/

/-- Left fold of an `Except`-valued body over a list, stopping at the first
error. -/
def foldE {σ α : Type} (f : σ → α → Except Err σ) : σ → List α → Except Err σ
  | s, [] => .ok s
  | s, x :: xs =>
      match f s x with
      | .error e => .error e
      | .ok s' => foldE f s' xs

/-- Keep the first occurrence of every element (the iteration over unique keys
of the multimap, lines 805-832: equal keys are grouped and each distinct key
is processed once). -/
def dedup {α : Type} [DecidableEq α] : List α → List α
  | [] => []
  | x :: xs => x :: (dedup xs).filter (fun y => y ≠ x)

theorem mem_dedup {α : Type} [DecidableEq α] (l : List α) (a : α) :
    a ∈ dedup l ↔ a ∈ l := by
  induction l with
  | nil => simp [dedup]
  | cons x xs ih =>
      simp only [dedup, List.mem_cons, List.mem_filter]
      constructor
      · rintro (rfl | ⟨h, _⟩)
        · exact .inl rfl
        · exact .inr (ih.mp h)
      · rintro (rfl | h)
        · exact .inl rfl
        · by_cases hx : a = x
          · exact .inl hx
          · exact .inr ⟨ih.mpr h, by simpa using hx⟩

/-! ## Shader-global uniformity table (lines 264-347) -/

/-- The `fields` / `field_is_uniform` tables (lines 269-333): name of each
member of the `ShaderGlobalsBatch` struct, paired with its uniformity. -/
def fields : List (String × Bool) :=
  [("renderstate", true), ("tracedata", true), ("objdata", true),
   ("shadingcontext", true), ("renderer", true), ("Ci", true),
   ("raytype", true), ("pad0", true), ("pad1", true), ("pad2", true),
   ("P", false), ("dPdz", false), ("I", false), ("N", false), ("Ng", false),
   ("u", false), ("v", false), ("dPdu", false), ("dPdv", false),
   ("time", false), ("dtime", false), ("dPdtime", false), ("Ps", false),
   ("object2common", false), ("shader2common", false), ("surfacearea", false),
   ("flipHandedness", false), ("backfacing", false)]

/-- `IsShaderGlobalUniformByName` (lines 336-345): scan the `fields` table in
order; on the first name match return the recorded uniformity; return `false`
when the name is absent from the table. -/
def IsShaderGlobalUniformByName (name : String) : Bool :=
  match fields.find? (fun p => p.1 == name) with
  | some p => p.2
  | none => false

/-- The ten global names the table records as uniform (spec section 6). -/
def uniformGlobalNames : List String :=
  ["renderstate", "tracedata", "objdata", "shadingcontext", "renderer",
   "Ci", "raytype", "pad0", "pad1", "pad2"]

/-! ## Analysis state -/

/-- `UsageInfo` (lines 426-436): per-symbol record of the last write's block
depth and mask id, and the writes not yet known to need masking. -/
structure UsageInfo where
  last_depth : Nat := 0
  last_maskId : Nat := 0
  potentially_unmasked_ops : List (Nat × Nat) := []
deriving DecidableEq, Repr

/-- The mutable state captured by the analysis lambdas (lines 418-478): the
feed-forward multimap, the usage table, the uniformity table, the
enclosing-condition stack, the loop-control stack, the `getattribute` writer
list, the per-op masking vector for the current layer, and the mask-id
counter. -/
structure AState where
  symbolFeedForwardMap : List (Symbol × Symbol) := []
  usageInfoBySymbol : List (Symbol × UsageInfo) := []
  is_uniform_by_symbol : List (Symbol × Bool) := []
  symbolsCurrentBlockDependsOn : List Symbol := []
  loopControlFlowSymbolStack : List Symbol := []
  symbolsWrittenToByGetAttribute : List Symbol := []
  requires_masking : List Bool := []
  nextMaskId : Nat := 0
deriving DecidableEq, Repr

instance : Inhabited AState := ⟨{}⟩

/-- The single loop of lines 457-466: mark every pending usage deeper than
`blockDepth` in the masking vector, keep the others (in order) as the
remaining pending list. -/
def markAndRemain (blockDepth : Nat) :
    List (Nat × Nat) → List Bool → List Bool × List (Nat × Nat)
  | [], masking => (masking, [])
  | usage :: rest, masking =>
      if usage.1 > blockDepth then
        markAndRemain blockDepth rest (masking.set usage.2 true)
      else
        let mr := markAndRemain blockDepth rest masking
        (mr.1, usage :: mr.2)

/-- `ensureWritesAtLowerDepthAreMasked` (lines 445-475).  If the symbol has
usage info whose last write is deeper than `blockDepth` under a different
mask id, assert the pending list non-empty, mark every pending write deeper
than `blockDepth` as requiring masking and drop it from the pending list, and
reset `last_depth` to `blockDepth`. -/
def ensureWritesAtLowerDepthAreMasked (st : AState) (symbolToCheck : Symbol)
    (blockDepth maskId : Nat) : Except Err AState :=
  match alookup st.usageInfoBySymbol symbolToCheck with
  | none => .ok st
  | some info =>
      if info.last_depth > blockDepth ∧ info.last_maskId ≠ maskId then
        if info.potentially_unmasked_ops = [] then
          .error .assertPendingEmpty
        else
          let mr := markAndRemain blockDepth info.potentially_unmasked_ops
            st.requires_masking
          .ok { st with
            requires_masking := mr.1,
            usageInfoBySymbol := aset st.usageInfoBySymbol symbolToCheck
              { info with potentially_unmasked_ops := mr.2,
                          last_depth := blockDepth } }
      else .ok st

/-! ## The structured walk `discoverSymbolsBetween` (lines 479-709) -/

/-- The symbols an op reads, in argument order (lines 500-503). -/
def readsOf (o : Opcode) : List Symbol :=
  (o.args.filter (fun a => a.read)).map (fun a => a.sym)

/-- The symbols an op writes, in argument order (lines 496-499). -/
def writesOf (o : Opcode) : List Symbol :=
  (o.args.filter (fun a => a.write)).map (fun a => a.sym)

/-- Lines 507-511: every argument symbol of the op is (re)recorded as
uniform, the initial optimistic assumption. -/
def seedArgSymbols (table : List (Symbol × Bool)) (args : List OpArg) :
    List (Symbol × Bool) :=
  args.foldl (fun t a => aset t a.sym true) table

/-- Lines 515-526: for each read symbol, insert a feed-forward edge to every
written symbol (skipping self-edges), then check whether earlier writes to the
read symbol must be masked. -/
def processReads (writes : List Symbol) (blockDepth maskId : Nat)
    (st : AState) (reads : List Symbol) : Except Err AState :=
  foldE (fun st r =>
      ensureWritesAtLowerDepthAreMasked
        { st with symbolFeedForwardMap := st.symbolFeedForwardMap ++
            (writes.filter (fun w => w ≠ r)).map (fun w => (r, w)) }
        r blockDepth maskId)
    st reads

/-- Lines 528-534: record each written symbol's usage: last write depth and
mask id become the current write depth/mask, and the op joins the pending
(potentially unmasked) list. -/
def recordWrites (usage : List (Symbol × UsageInfo))
    (writes : List Symbol) (writeBlockDepth writeMaskId opIndex : Nat) :
    List (Symbol × UsageInfo) :=
  writes.foldl (fun u w =>
      let info := (alookup u w).getD {}
      aset u w { last_depth := writeBlockDepth, last_maskId := writeMaskId,
                 potentially_unmasked_ops :=
                   info.potentially_unmasked_ops ++ [(writeBlockDepth, opIndex)] })
    usage

/-- Lines 538-547: every symbol the current block's execution depends on
gains a feed-forward edge to every symbol written by the op (skipping
self-edges). -/
def conditionEdges (deps writes : List Symbol) : List (Symbol × Symbol) :=
  deps.foldl (fun acc c =>
      acc ++ (writes.filter (fun w => w ≠ c)).map (fun w => (c, w))) []

/-- `pushSymbolsCurentBlockDependsOn` (lines 555-560): assert the op reads a
single condition symbol and push it. -/
def pushDependsOn (st : AState) (reads : List Symbol) : Except Err AState :=
  match reads with
  | [c] => .ok { st with symbolsCurrentBlockDependsOn :=
      st.symbolsCurrentBlockDependsOn ++ [c] }
  | _ => .error .assertSingleCondRead

/-- `popSymbolsCurentBlockDependsOn` (lines 562-572): assert the stack top is
the op's single read symbol and pop it. -/
def popDependsOn (st : AState) (reads : List Symbol) : Except Err AState :=
  match reads with
  | [c] =>
      match st.symbolsCurrentBlockDependsOn.getLast? with
      | some c' =>
          if c' = c then
            .ok { st with symbolsCurrentBlockDependsOn :=
                st.symbolsCurrentBlockDependsOn.dropLast }
          else .error .assertPopMismatch
      | none => .error .assertPopMismatch
  | _ => .error .assertSingleCondRead

/-- Lines 647-648: assert the loop-control stack top is the loop's condition
symbol and pop it. -/
def popLoopControl (st : AState) (reads : List Symbol) : Except Err AState :=
  match reads with
  | [c] =>
      match st.loopControlFlowSymbolStack.getLast? with
      | some c' =>
          if c' = c then
            .ok { st with loopControlFlowSymbolStack :=
                st.loopControlFlowSymbolStack.dropLast }
          else .error .assertLoopPopMismatch
      | none => .error .assertLoopPopMismatch
  | _ => .error .assertSingleCondRead

/-- The `op_break` handling (lines 664-694): assert a loop is open, add a
feed-forward edge to the loop condition from every symbol that follows the
first occurrence of the loop condition on the enclosing-condition stack, and
record the break op as a pending write on the loop condition's usage info
(raising its last write depth/mask if the break is deeper). -/
def processBreakOp (st : AState) (writeBlockDepth writeMaskId opIndex : Nat) :
    Except Err AState :=
  match st.loopControlFlowSymbolStack.getLast? with
  | none => .error .assertLoopStackEmpty
  | some loopCondition =>
      match st.symbolsCurrentBlockDependsOn.findIdx?
          (fun c => c == loopCondition) with
      | none => .error .assertLoopCondNotFound
      | some i =>
          let info := (alookup st.usageInfoBySymbol loopCondition).getD {}
          let info1 :=
            if writeBlockDepth > info.last_depth then
              { info with last_depth := writeBlockDepth,
                          last_maskId := writeMaskId }
            else info
          .ok { st with
            symbolFeedForwardMap := st.symbolFeedForwardMap ++
              (st.symbolsCurrentBlockDependsOn.drop (i + 1)).map
                (fun c => (c, loopCondition)),
            usageInfoBySymbol := aset st.usageInfoBySymbol loopCondition
              { info1 with potentially_unmasked_ops :=
                  info1.potentially_unmasked_ops ++
                    [(writeBlockDepth, opIndex)] } }

/-- `discoverSymbolsBetween` (lines 479-709): process ops `[opIndex, endop)`.
`blockDepth`/`maskId` govern reads, `writeBlockDepth`/`writeMaskId` govern
writes (they differ only inside a loop's condition block).  Structured ops
recurse into their nested ranges in the same order as the code generator,
then skip to `farthest_jump`. -/
def discoverSymbolsBetween (ir : LayerIR) :
    Nat → Nat → Nat → Nat → Nat → Nat → Nat → AState → Except Err AState
  | 0, _, _, _, _, _, _, _ => .error .outOfFuel
  | fuel + 1, opIndex, endop, blockDepth, writeBlockDepth, maskId,
      writeMaskId, st0 =>
    if opIndex < endop then
      match ir.ops.get? opIndex with
      | none => .error .opIndexOutOfRange
      | some opcode =>
        let reads := readsOf opcode
        let writes := writesOf opcode
        let st1 := { st0 with
          is_uniform_by_symbol :=
            seedArgSymbols st0.is_uniform_by_symbol opcode.args }
        match processReads writes blockDepth maskId st1 reads with
        | .error e => .error e
        | .ok st2 =>
          let st3 := { st2 with
            usageInfoBySymbol :=
              recordWrites st2.usageInfoBySymbol writes writeBlockDepth
                writeMaskId opIndex }
          let st4 := { st3 with
            symbolFeedForwardMap := st3.symbolFeedForwardMap ++
              conditionEdges st3.symbolsCurrentBlockDependsOn writes }
          let dispatched : Except Err AState :=
            if 0 ≤ opcode.jump 0 then
              if opcode.opname = "if" then
                match pushDependsOn st4 reads with
                | .error e => .error e
                | .ok stA =>
                  let thenMaskId := stA.nextMaskId
                  let stA := { stA with nextMaskId := stA.nextMaskId + 1 }
                  match discoverSymbolsBetween ir fuel (opIndex + 1)
                      (opcode.jump 0).toNat (blockDepth + 1) (blockDepth + 1)
                      thenMaskId thenMaskId stA with
                  | .error e => .error e
                  | .ok stB =>
                    let elseMaskId := stB.nextMaskId
                    let stB := { stB with nextMaskId := stB.nextMaskId + 1 }
                    match discoverSymbolsBetween ir fuel
                        (opcode.jump 0).toNat (opcode.jump 1).toNat
                        (blockDepth + 1) (blockDepth + 1)
                        elseMaskId elseMaskId stB with
                    | .error e => .error e
                    | .ok stC => popDependsOn stC reads
              else if opcode.opname = "for" ∨ opcode.opname = "while" ∨
                  opcode.opname = "dowhile" then
                match discoverSymbolsBetween ir fuel (opIndex + 1)
                    (opcode.jump 0).toNat blockDepth blockDepth
                    maskId maskId st4 with
                | .error e => .error e
                | .ok stA =>
                  let maskIdForBodyAndStep := stA.nextMaskId
                  let stA := { stA with nextMaskId := stA.nextMaskId + 1 }
                  match pushDependsOn stA reads with
                  | .error e => .error e
                  | .ok stB =>
                    match reads with
                    | [c] =>
                      let stB := { stB with loopControlFlowSymbolStack :=
                        stB.loopControlFlowSymbolStack ++ [c] }
                      match discoverSymbolsBetween ir fuel
                          (opcode.jump 1).toNat (opcode.jump 2).toNat
                          (blockDepth + 1) (blockDepth + 1)
                          maskIdForBodyAndStep maskIdForBodyAndStep stB with
                      | .error e => .error e
                      | .ok stC =>
                        match discoverSymbolsBetween ir fuel
                            (opcode.jump 2).toNat (opcode.jump 3).toNat
                            (blockDepth + 1) (blockDepth + 1)
                            maskIdForBodyAndStep maskIdForBodyAndStep stC with
                        | .error e => .error e
                        | .ok stD =>
                          match discoverSymbolsBetween ir fuel
                              (opcode.jump 0).toNat (opcode.jump 1).toNat
                              blockDepth (blockDepth + 1)
                              maskId maskIdForBodyAndStep stD with
                          | .error e => .error e
                          | .ok stE =>
                            match opcode.args.head? with
                            | none => .error .argIndexOutOfRange
                            | some condArg =>
                              match ensureWritesAtLowerDepthAreMasked stE
                                  condArg.sym blockDepth maskId with
                              | .error e => .error e
                              | .ok stF =>
                                match popDependsOn stF reads with
                                | .error e => .error e
                                | .ok stG => popLoopControl stG reads
                    | _ => .error .assertSingleCondRead
              else if opcode.opname = "functioncall" then
                discoverSymbolsBetween ir fuel (opIndex + 1)
                  (opcode.jump 0).toNat blockDepth writeBlockDepth
                  maskId writeMaskId st4
              else .error .assertUnhandledJumpOp
            else .ok st4
          match dispatched with
          | .error e => .error e
          | .ok st5 =>
            match (if opcode.opname = "break" then
                processBreakOp st5 writeBlockDepth writeMaskId opIndex
              else .ok st5) with
            | .error e => .error e
            | .ok st6 =>
              let st7 :=
                if opcode.opname = "getattribute" then
                  { st6 with symbolsWrittenToByGetAttribute :=
                    st6.symbolsWrittenToByGetAttribute ++ writes }
                else st6
              let next := opcode.farthest_jump
              discoverSymbolsBetween ir fuel
                (if 0 ≤ next then next.toNat else opIndex + 1) endop
                blockDepth writeBlockDepth maskId writeMaskId st7
    else .ok st0

/-! ## Varying propagation and the per-layer pipeline (lines 711-880) -/

/-- The dependents of `s` in the feed-forward multimap
(`equal_range(nonUniformSymbol)`, lines 796-801). -/
def successorsOf (edges : List (Symbol × Symbol)) (s : Symbol) : List Symbol :=
  edges.filterMap (fun e => if e.1 = s then some e.2 else none)

/-- `recursivelyMarkNonUniform` (lines 790-803): force the symbol varying in
the uniformity table (inserting it when absent, as `operator[]` does) and,
when it was previously uniform, recurse into all its feed-forward
dependents. -/
def recursivelyMarkNonUniform (edges : List (Symbol × Symbol)) :
    Nat → List (Symbol × Bool) → Symbol → Except Err (List (Symbol × Bool))
  | 0, _, _ => .error .outOfFuel
  | fuel + 1, table, s =>
      let previously_was_uniform := (alookup table s).getD false
      let table1 := aset table s false
      if previously_was_uniform then
        foldE (recursivelyMarkNonUniform edges fuel) table1
          (successorsOf edges s)
      else .ok table1

/-- The seed classification of a feed-forward key (lines 811-819): a global
is uniform according to the shader-globals name table; a (non-output)
parameter is never uniform; every other symbol class starts uniform. -/
def seedIsUniform (s : Symbol) : Bool :=
  match s.symtype with
  | .Global => IsShaderGlobalUniformByName s.name
  | .Param => false
  | _ => true

/-- `FOREACH_PARAM` (iteration over the instance's parameter symbols:
`Param` and `OutputParam` entries of the symbol table).  Modelled from the
spec: "iteration over parameter symbols". -/
def foreachParam (ir : LayerIR) : List Symbol :=
  ir.symbols.filter (fun s =>
    s.symtype = SymType.Param ∨ s.symtype = SymType.OutputParam)

/-- Lines 723-741: whether the first (non-parameter) init-ops pass runs a
symbol's init ops: not a constant, not a structure placeholder, a
local/temp/... that is constant-valued, closure-based, string-based, or (with
`debug_uninit`) any local or temp, and carrying default-value init ops. -/
def wantsInitOpsNonParam (ir : LayerIR) (s : Symbol) : Bool :=
  ¬ s.symtype = SymType.Const ∧
  ¬ s.is_structure ∧
  (¬ s.symtype = SymType.Param ∧ ¬ s.symtype = SymType.OutputParam ∧
   ¬ s.symtype = SymType.Global ∧
   (s.is_constant ∨ s.is_closure_based ∨ s.is_string_based ∨
    ((s.symtype = SymType.Local ∨ s.symtype = SymType.Temp) ∧
     ir.debug_uninit))) ∧
  (s.has_init_ops ∧ s.valuesource_default)

/-- Lines 747-760: the skip conditions of the parameter init-ops pass: skip
structure placeholders, parameters never read and unconnected, and lazily
initialized userdata parameters. -/
def paramPassSkips (ir : LayerIR) (s : Symbol) : Bool :=
  s.is_structure ∨
  (¬ s.everread ∧ ¬ s.connected_down ∧ ¬ s.connected ∧
   ¬ s.renderer_output) ∨
  (s.symtype = SymType.Param ∧ ¬ s.lockgeom ∧ ¬ s.is_closure ∧
   ¬ s.connected ∧ ¬ s.connected_down ∧ ir.lazy_userdata)

/-- Lines 776-782: the skip conditions of the output-parameter masking pass
(structure placeholders, and parameters never read and unconnected). -/
def outputMaskPassSkips (s : Symbol) : Bool :=
  s.is_structure ∨
  (¬ s.everread ∧ ¬ s.connected_down ∧ ¬ s.connected ∧ ¬ s.renderer_output)

/-- The two per-layer output tables of the backend
(`m_requires_masking_by_layer_and_op_index[layer()]` and
`m_is_uniform_by_symbol`) as they stand before/after one analysis. -/
structure BackendTables where
  requires_masking : List Bool := []
  is_uniform_by_symbol : List (Symbol × Bool) := []
deriving DecidableEq, Repr

/-- The tables held in an analysis state. -/
def tablesOf (st : AState) : BackendTables :=
  { requires_masking := st.requires_masking,
    is_uniform_by_symbol := st.is_uniform_by_symbol }

/-- Lines 719-742: the first init-ops pass, over every symbol of the
instance. -/
def initPassNonParam (ir : LayerIR) (fuel mainMask : Nat) (st : AState) :
    Except Err AState :=
  foldE (fun st s =>
      if wantsInitOpsNonParam ir s then
        discoverSymbolsBetween ir fuel s.initbegin s.initend 0 0
          mainMask mainMask st
      else .ok st) st ir.symbols

/-- Lines 745-766: the second init-ops pass, over the parameters. -/
def initPassParam (ir : LayerIR) (fuel mainMask : Nat) (st : AState) :
    Except Err AState :=
  foldE (fun st s =>
      if ¬ paramPassSkips ir s ∧ s.has_init_ops ∧ s.valuesource_default then
        discoverSymbolsBetween ir fuel s.initbegin s.initend 0 0
          mainMask mainMask st
      else .ok st) st (foreachParam ir)

/-- Lines 770-786: the simulated outermost read of each (read or connected)
output parameter, forcing masking of deeper writes to it. -/
def outputEnsurePass (ir : LayerIR) (mainMask : Nat) (st : AState) :
    Except Err AState :=
  foldE (fun st s =>
      if ¬ outputMaskPassSkips s ∧ s.symtype = SymType.OutputParam then
        ensureWritesAtLowerDepthAreMasked st s 0 mainMask
      else .ok st) st (foreachParam ir)

/-- Lines 805-832: for each unique key of the feed-forward map, compute its
seed uniformity and, when varying, propagate varying through its
dependents. -/
def feedKeySeedPass (edges : List (Symbol × Symbol)) (fuel : Nat)
    (table : List (Symbol × Bool)) : Except Err (List (Symbol × Bool)) :=
  foldE (fun table r =>
      if seedIsUniform r then .ok table
      else recursivelyMarkNonUniform edges fuel table r)
    table (dedup (edges.map Prod.fst))

/-- Lines 834-844: mark every output parameter varying. -/
def outputParamMarkPass (ir : LayerIR) (edges : List (Symbol × Symbol))
    (fuel : Nat) (table : List (Symbol × Bool)) :
    Except Err (List (Symbol × Bool)) :=
  foldE (fun table s =>
      if s.symtype = SymType.OutputParam then
        recursivelyMarkNonUniform edges fuel table s
      else .ok table) table (foreachParam ir)

/-- Lines 847-851: mark every symbol written by a `getattribute` op
varying. -/
def getAttrMarkPass (edges : List (Symbol × Symbol)) (fuel : Nat)
    (table : List (Symbol × Bool)) (getAttrWriters : List Symbol) :
    Except Err (List (Symbol × Bool)) :=
  foldE (recursivelyMarkNonUniform edges fuel) table getAttrWriters

/-- `discoverVaryingAndMaskingOfLayer` (lines 409-880), starting from the
backend tables `prev` left by earlier analyses.  Asserts the layer's masking
vector is still empty and sizes it to the op count; walks the non-parameter
init ops, the parameter init ops, and the main code range, all at depth 0
under the main mask; simulates an outermost read of every (read or connected)
output parameter; seeds varying propagation from the feed-forward keys that
are varying globals or parameters; and finally forces every output parameter
and every `getattribute` destination varying. -/
def discoverVaryingAndMaskingOfLayer (ir : LayerIR) (prev : BackendTables)
    (fuel : Nat) : Except Err AState :=
  if prev.requires_masking = [] then
    let st : AState :=
      { is_uniform_by_symbol := prev.is_uniform_by_symbol,
        requires_masking := List.replicate ir.ops.length false,
        nextMaskId := 0 }
    let mainMask := st.nextMaskId
    let st := { st with nextMaskId := st.nextMaskId + 1 }
    match initPassNonParam ir fuel mainMask st with
    | .error e => .error e
    | .ok st =>
      match initPassParam ir fuel mainMask st with
      | .error e => .error e
      | .ok st =>
        match discoverSymbolsBetween ir fuel ir.maincodebegin
            ir.maincodeend 0 0 mainMask mainMask st with
        | .error e => .error e
        | .ok st =>
          match outputEnsurePass ir mainMask st with
          | .error e => .error e
          | .ok st =>
            match feedKeySeedPass st.symbolFeedForwardMap fuel
                st.is_uniform_by_symbol with
            | .error e => .error e
            | .ok table =>
              match outputParamMarkPass ir st.symbolFeedForwardMap fuel
                  table with
              | .error e => .error e
              | .ok table =>
                match getAttrMarkPass st.symbolFeedForwardMap fuel table
                    st.symbolsWrittenToByGetAttribute with
                | .error e => .error e
                | .ok table => .ok { st with is_uniform_by_symbol := table }
  else .error .assertRequiresMaskingNotEmpty

/-- `isSymbolUniform` (lines 882-905): assert the frozen table non-empty;
symbols absent from it default to uniform, except output parameters which
default to varying. -/
def isSymbolUniform (table : List (Symbol × Bool)) (sym : Symbol) :
    Except Err Bool :=
  if table = [] then .error .assertIsUniformTableEmpty
  else
    match alookup table sym with
    | none =>
        if sym.symtype = SymType.OutputParam then .ok false else .ok true
    | some is_uniform => .ok is_uniform

/-! ## Reachability in the feed-forward graph, and correctness of
`recursivelyMarkNonUniform` -/

/-- The symbol has an entry in a uniformity table. -/
def InDom (t : List (Symbol × Bool)) (s : Symbol) : Prop :=
  (alookup t s).isSome

/-- The table records the symbol as varying. -/
def IsVarying (t : List (Symbol × Bool)) (s : Symbol) : Prop :=
  alookup t s = some false

/-- A feed-forward path (of length ≥ 0) from `a` to `b`. -/
def Reaches (edges : List (Symbol × Symbol)) (a b : Symbol) : Prop :=
  Relation.ReflTransGen (fun x y => (x, y) ∈ edges) a b

/-- Every feed-forward edge leaving a varying symbol lands on a varying
symbol — except possibly on members of `X` (the set of roots whose marking
is still pending). -/
def EdgeClosedUpTo (edges : List (Symbol × Symbol))
    (t : List (Symbol × Bool)) (X : Symbol → Prop) : Prop :=
  ∀ a b, IsVarying t a → (a, b) ∈ edges → (IsVarying t b ∨ X b)

/-- Every edge source has an entry in the uniformity table (established by
the walk, which seeds every op argument before inserting its edges). -/
def SourcesInDom (edges : List (Symbol × Symbol))
    (t : List (Symbol × Bool)) : Prop :=
  ∀ e ∈ edges, InDom t e.1

theorem mem_successorsOf (edges : List (Symbol × Symbol)) (a b : Symbol) :
    b ∈ successorsOf edges a ↔ (a, b) ∈ edges := by
  simp only [successorsOf, List.mem_filterMap]
  constructor
  · rintro ⟨⟨x, y⟩, hmem, he⟩
    dsimp only at he
    by_cases h1 : x = a
    · rw [if_pos h1] at he
      obtain rfl := Option.some_inj.mp he
      subst h1
      exact hmem
    · rw [if_neg h1] at he
      exact absurd he (by simp)
  · intro h
    exact ⟨(a, b), h, by simp⟩

theorem closedUpTo_mono (edges : List (Symbol × Symbol))
    (t : List (Symbol × Bool)) {X Y : Symbol → Prop}
    (hXY : ∀ b, X b → Y b) (h : EdgeClosedUpTo edges t X) :
    EdgeClosedUpTo edges t Y :=
  fun a b ha hab => (h a b ha hab).imp id (hXY b)

theorem foldE_nil_ok {σ α : Type} (f : σ → α → Except Err σ) (s s' : σ)
    (h : foldE f s [] = .ok s') : s = s' :=
  Except.ok.inj h

theorem foldE_cons_ok {σ α : Type} (f : σ → α → Except Err σ) (s : σ)
    (x : α) (xs : List α) (s' : σ) (h : foldE f s (x :: xs) = .ok s') :
    ∃ s1, f s x = .ok s1 ∧ foldE f s1 xs = .ok s' := by
  unfold foldE at h
  cases hf : f s x with
  | error e => rw [hf] at h; simp at h
  | ok s1 =>
      rw [hf] at h
      exact ⟨s1, rfl, h⟩

/-- Correctness of `recursivelyMarkNonUniform`: starting from a table whose
varying set is edge-closed up to `{root} ∪ X` and in which every edge source
has an entry, a completed call marks exactly the old varying set plus the
symbols reachable from `root` — it preserves varying entries, makes `root`
varying, only adds symbols reachable from `root`, restores closure up to
`X`, and never drops a table entry. -/
theorem mark_spec (edges : List (Symbol × Symbol)) :
    ∀ (fuel : Nat) (t : List (Symbol × Bool)) (root : Symbol)
      (X : Symbol → Prop) (t' : List (Symbol × Bool)),
      SourcesInDom edges t →
      EdgeClosedUpTo edges t (fun b => b = root ∨ X b) →
      recursivelyMarkNonUniform edges fuel t root = .ok t' →
      (∀ s, IsVarying t s → IsVarying t' s) ∧
      IsVarying t' root ∧
      (∀ s, IsVarying t' s → IsVarying t s ∨ Reaches edges root s) ∧
      EdgeClosedUpTo edges t' X ∧
      (∀ s, InDom t s → InDom t' s) := by
  intro fuel
  induction fuel with
  | zero =>
      intro t root X t' _ _ h
      exact absurd h (by simp [recursivelyMarkNonUniform])
  | succ fuel ih =>
      have fold_spec : ∀ (l : List Symbol) (X : Symbol → Prop)
          (t t' : List (Symbol × Bool)),
          SourcesInDom edges t →
          EdgeClosedUpTo edges t (fun b => b ∈ l ∨ X b) →
          foldE (recursivelyMarkNonUniform edges fuel) t l = .ok t' →
          (∀ s, IsVarying t s → IsVarying t' s) ∧
          (∀ s ∈ l, IsVarying t' s) ∧
          (∀ s, IsVarying t' s →
              IsVarying t s ∨ ∃ r ∈ l, Reaches edges r s) ∧
          EdgeClosedUpTo edges t' X ∧
          (∀ s, InDom t s → InDom t' s) := by
        intro l
        induction l with
        | nil =>
            intro X t t' hsrc hcl h
            obtain rfl := foldE_nil_ok _ _ _ h
            refine ⟨fun s hs => hs, by simp, fun s hs => .inl hs, ?_,
              fun s hs => hs⟩
            exact closedUpTo_mono edges t (by simp) hcl
        | cons r l ihl =>
            intro X t t' hsrc hcl h
            obtain ⟨t1, hm, hrest⟩ := foldE_cons_ok _ _ _ _ _ h
            obtain ⟨hmono1, hroot1, hsound1, hcl1, hdom1⟩ :=
              ih t r (fun b => b ∈ l ∨ X b) t1 hsrc
                (closedUpTo_mono edges t (by simp [or_assoc]) hcl) hm
            obtain ⟨hmono2, hall2, hsound2, hcl2, hdom2⟩ :=
              ihl X t1 t' (fun e he => hdom1 e.1 (hsrc e he)) hcl1 hrest
            refine ⟨fun s hs => hmono2 s (hmono1 s hs), ?_, ?_, hcl2,
              fun s hs => hdom2 s (hdom1 s hs)⟩
            · intro s hs
              rcases List.mem_cons.mp hs with rfl | hs'
              · exact hmono2 s hroot1
              · exact hall2 s hs'
            · intro s hs
              rcases hsound2 s hs with hs1 | ⟨r', hr', hreach⟩
              · rcases hsound1 s hs1 with hs0 | hreach
                · exact .inl hs0
                · exact .inr ⟨r, List.mem_cons_self r l, hreach⟩
              · exact .inr ⟨r', List.mem_cons_of_mem r hr', hreach⟩
      intro t root X t' hsrc hcl h
      simp only [recursivelyMarkNonUniform] at h
      by_cases hpv : (alookup t root).getD false = true
      · rw [if_pos hpv] at h
        have hlook : alookup t root = some true := by
          cases hl : alookup t root with
          | none => rw [hl] at hpv; simp at hpv
          | some b => rw [hl] at hpv; simp at hpv; rw [hpv]
        -- the table after forcing the root varying
        have hmono0 : ∀ s, IsVarying t s →
            IsVarying (aset t root false) s := by
          intro s hs
          by_cases hsr : s = root
          · subst hsr
            rw [IsVarying, hlook] at hs
            simp at hs
          · rwa [IsVarying, alookup_aset_ne _ _ _ _ hsr]
        have hroot0 : IsVarying (aset t root false) root :=
          alookup_aset_self _ _ _
        have hcl0 : EdgeClosedUpTo edges (aset t root false)
            (fun b => b ∈ successorsOf edges root ∨ X b) := by
          intro a b ha hab
          by_cases har : a = root
          · subst har
            exact .inr (.inl ((mem_successorsOf edges a b).mpr hab))
          · rw [IsVarying, alookup_aset_ne _ _ _ _ har] at ha
            rcases hcl a b ha hab with hv | hbr | hx
            · exact .inl (hmono0 b hv)
            · subst hbr
              exact .inl hroot0
            · exact .inr (.inr hx)
        obtain ⟨hmonoF, hallF, hsoundF, hclF, hdomF⟩ :=
          fold_spec (successorsOf edges root) X (aset t root false) t'
            (fun e he => alookup_aset_isSome _ _ _ _ (hsrc e he)) hcl0 h
        refine ⟨fun s hs => hmonoF s (hmono0 s hs), hmonoF root hroot0,
          ?_, hclF, fun s hs => hdomF s (alookup_aset_isSome _ _ _ _ hs)⟩
        intro s hs
        rcases hsoundF s hs with hs1 | ⟨r, hr, hreach⟩
        · by_cases hsr : s = root
          · exact .inr (hsr ▸ Relation.ReflTransGen.refl)
          · rw [IsVarying, alookup_aset_ne _ _ _ _ hsr] at hs1
            exact .inl hs1
        · exact .inr (Relation.ReflTransGen.head
            ((mem_successorsOf edges root r).mp hr) hreach)
      · rw [if_neg hpv] at h
        injection h with h2
        subst h2
        have hmono0 : ∀ s, IsVarying t s →
            IsVarying (aset t root false) s := by
          intro s hs
          by_cases hsr : s = root
          · subst hsr
            exact alookup_aset_self _ _ _
          · rwa [IsVarying, alookup_aset_ne _ _ _ _ hsr]
        have hroot0 : IsVarying (aset t root false) root :=
          alookup_aset_self _ _ _
        refine ⟨hmono0, hroot0, ?_, ?_, ?_⟩
        · intro s hs
          by_cases hsr : s = root
          · exact .inr (hsr ▸ Relation.ReflTransGen.refl)
          · rw [IsVarying, alookup_aset_ne _ _ _ _ hsr] at hs
            exact .inl hs
        · intro a b ha hab
          by_cases har : a = root
          · -- the root was already varying or absent; absent roots have no
            -- out-edges, varying roots were closed already
            subst har
            cases hl : alookup t a with
            | none =>
                exact absurd (hsrc (a, b) hab) (by simp [InDom, hl])
            | some v =>
                have hv : v = false := by
                  rw [hl] at hpv
                  simpa using hpv
                subst hv
                rcases hcl a b hl hab with hv | hbr | hx
                · exact .inl (hmono0 b hv)
                · subst hbr
                  exact .inl hroot0
                · exact .inr hx
          · rw [IsVarying, alookup_aset_ne _ _ _ _ har] at ha
            rcases hcl a b ha hab with hv | hbr | hx
            · exact .inl (hmono0 b hv)
            · subst hbr
              exact .inl hroot0
            · exact .inr hx
        · intro s hs
          exact alookup_aset_isSome _ _ _ _ hs

/-- In a table whose varying set is edge-closed, varying propagates along
every feed-forward path. -/
theorem varying_of_reaches (edges : List (Symbol × Symbol))
    (t : List (Symbol × Bool))
    (hcl : EdgeClosedUpTo edges t (fun _ => False)) (a b : Symbol)
    (hab : Reaches edges a b) (ha : IsVarying t a) : IsVarying t b := by
  induction hab with
  | refl => exact ha
  | tail _ hstep ih =>
      rcases hcl _ _ ih hstep with hv | hx
      · exact hv
      · exact hx.elim

/-! ## Lemmas about the name table and the mask planner -/

theorem find_table_true_iff (name : String) (l : List (String × Bool))
    (hnd : (l.map Prod.fst).Nodup) :
    (match l.find? (fun p => p.1 == name) with
     | some p => p.2
     | none => false) = true ↔ (name, true) ∈ l := by
  induction l with
  | nil => simp
  | cons p rest ih =>
      obtain ⟨hn, hnd'⟩ := by simpa using hnd
      by_cases hk : p.1 = name
      · subst hk
        simp only [List.find?_cons, beq_self_eq_true, List.mem_cons]
        constructor
        · intro h
          left
          cases p
          simp_all
        · rintro (h | h)
          · cases p; simp_all
          · exact absurd (List.mem_map_of_mem Prod.fst h) (by simpa using hn)
      · have hbeq : (p.1 == name) = false := by simpa using hk
        simp only [List.find?_cons, hbeq, List.mem_cons]
        rw [ih hnd']
        constructor
        · exact .inr
        · rintro (h | h)
          · cases p; simp_all
          · exact h

theorem markAndRemain_length (d : Nat) (pending : List (Nat × Nat))
    (m : List Bool) : (markAndRemain d pending m).1.length = m.length := by
  induction pending generalizing m with
  | nil => simp [markAndRemain]
  | cons u rest ih =>
      by_cases hu : u.1 > d
      · simp only [markAndRemain, if_pos hu]
        rw [ih, List.length_set]
      · simp only [markAndRemain, if_neg hu]
        exact ih m

theorem markAndRemain_snd (d : Nat) (pending : List (Nat × Nat))
    (m : List Bool) :
    (markAndRemain d pending m).2 = pending.filter (fun u => u.1 ≤ d) := by
  induction pending generalizing m with
  | nil => simp [markAndRemain]
  | cons u rest ih =>
      by_cases hu : u.1 > d
      · have : ¬ u.1 ≤ d := by omega
        simp only [markAndRemain, if_pos hu, List.filter_cons]
        simp [this, ih]
      · have : u.1 ≤ d := by omega
        simp only [markAndRemain, if_neg hu, List.filter_cons]
        simp [this, ih]

theorem markAndRemain_true_preserved (d : Nat) (pending : List (Nat × Nat))
    (m : List Bool) (i : Nat) (h : m[i]? = some true) :
    (markAndRemain d pending m).1[i]? = some true := by
  induction pending generalizing m with
  | nil => simpa [markAndRemain]
  | cons u rest ih =>
      by_cases hu : u.1 > d
      · simp only [markAndRemain, if_pos hu]
        apply ih
        by_cases hi : u.2 = i
        · subst hi
          rw [List.getElem?_set_self']
          simp [h]
        · rw [List.getElem?_set_ne hi]
          exact h
      · simp only [markAndRemain, if_neg hu]
        exact ih m h

theorem markAndRemain_marks (d : Nat) (pending : List (Nat × Nat))
    (m : List Bool) :
    ∀ u ∈ pending, u.1 > d → u.2 < m.length →
      (markAndRemain d pending m).1[u.2]? = some true := by
  induction pending generalizing m with
  | nil => intro u hu; simp at hu
  | cons v rest ih =>
      intro u hu hud hulen
      rcases List.mem_cons.mp hu with rfl | hu'
      · simp only [markAndRemain, if_pos hud]
        apply markAndRemain_true_preserved
        exact List.getElem?_set_eq_of_lt _ hulen
      · by_cases hv : v.1 > d
        · simp only [markAndRemain, if_pos hv]
          exact ih _ u hu' hud (by rwa [List.length_set])
        · simp only [markAndRemain, if_neg hv]
          exact ih m u hu' hud hulen

theorem markAndRemain_unmarked (d : Nat) (pending : List (Nat × Nat))
    (m : List Bool) (i : Nat)
    (h : ∀ u ∈ pending, ¬(u.1 > d ∧ u.2 = i)) :
    (markAndRemain d pending m).1[i]? = m[i]? := by
  induction pending generalizing m with
  | nil => simp [markAndRemain]
  | cons u rest ih =>
      by_cases hu : u.1 > d
      · have hne : u.2 ≠ i := fun he => h u (List.mem_cons_self u rest) ⟨hu, he⟩
        simp only [markAndRemain, if_pos hu]
        rw [ih _ (fun v hv => h v (List.mem_cons_of_mem _ hv)),
          List.getElem?_set_ne hne]
      · simp only [markAndRemain, if_neg hu]
        exact ih m (fun v hv => h v (List.mem_cons_of_mem _ hv))

/-! ## Invariants of the structured walk

The walk (phases before the varying propagation) establishes exactly the
facts `mark_spec` needs: every value in the uniformity table is still `true`
(the walk only ever writes the optimistic `true`), every feed-forward edge
source has a table entry (it was seeded as an op argument, or sits on one of
the two condition stacks, whose members were all seeded), and the masking
vector never changes length. -/

/-- The walk invariant: all table values are `true`; edge sources and both
condition stacks have table entries. -/
def WalkInv (st : AState) : Prop :=
  (∀ s b, alookup st.is_uniform_by_symbol s = some b → b = true) ∧
  SourcesInDom st.symbolFeedForwardMap st.is_uniform_by_symbol ∧
  (∀ s ∈ st.symbolsCurrentBlockDependsOn, InDom st.is_uniform_by_symbol s) ∧
  (∀ s ∈ st.loopControlFlowSymbolStack, InDom st.is_uniform_by_symbol s)

/-- Guarantees of any walk step: the table domain only grows and the masking
vector keeps its length. -/
def StepExt (st st' : AState) : Prop :=
  (∀ s, InDom st.is_uniform_by_symbol s → InDom st'.is_uniform_by_symbol s) ∧
  st'.requires_masking.length = st.requires_masking.length

theorem StepExt_rfl (st : AState) : StepExt st st :=
  ⟨fun _ hs => hs, Eq.refl _⟩

theorem StepExt_trans {a b c : AState} (h1 : StepExt a b) (h2 : StepExt b c) :
    StepExt a c :=
  ⟨fun s hs => h2.1 s (h1.1 s hs), h2.2.trans h1.2⟩

theorem seedArgs_alltrue (args : List OpArg) :
    ∀ (t : List (Symbol × Bool)),
      (∀ s b, alookup t s = some b → b = true) →
      ∀ s b, alookup (seedArgSymbols t args) s = some b → b = true := by
  induction args with
  | nil => intro t h; exact h
  | cons a as ih =>
      intro t h
      apply ih
      intro s b hs
      by_cases hsk : s = a.sym
      · subst hsk
        rw [alookup_aset_self] at hs
        exact (Option.some_inj.mp hs).symm
      · rw [alookup_aset_ne _ _ _ _ hsk] at hs
        exact h s b hs

theorem seedArgs_domMono (args : List OpArg) :
    ∀ (t : List (Symbol × Bool)) (s : Symbol),
      InDom t s → InDom (seedArgSymbols t args) s := by
  induction args with
  | nil => intro t s h; exact h
  | cons a as ih =>
      intro t s h
      exact ih _ s (alookup_aset_isSome _ _ _ _ h)

theorem seedArgs_mem_dom (args : List OpArg) :
    ∀ (t : List (Symbol × Bool)) (a : OpArg), a ∈ args →
      InDom (seedArgSymbols t args) a.sym := by
  induction args with
  | nil => intro t a h; simp at h
  | cons a0 as ih =>
      intro t a h
      rcases List.mem_cons.mp h with rfl | h'
      · exact seedArgs_domMono as _ _ (by simp [InDom, alookup_aset_self])
      · exact ih _ a h'

theorem mem_readsOf (o : Opcode) (r : Symbol) (h : r ∈ readsOf o) :
    ∃ a ∈ o.args, a.sym = r := by
  simp only [readsOf, List.mem_map, List.mem_filter] at h
  obtain ⟨a, ⟨ha, _⟩, rfl⟩ := h
  exact ⟨a, ha, rfl⟩

theorem mem_writesOf (o : Opcode) (w : Symbol) (h : w ∈ writesOf o) :
    ∃ a ∈ o.args, a.sym = w := by
  simp only [writesOf, List.mem_map, List.mem_filter] at h
  obtain ⟨a, ⟨ha, _⟩, rfl⟩ := h
  exact ⟨a, ha, rfl⟩

/-- `ensureWritesAtLowerDepthAreMasked` only touches the usage table and the
masking vector (keeping its length). -/
theorem ensure_frame (st st' : AState) (sym : Symbol) (d m : Nat)
    (h : ensureWritesAtLowerDepthAreMasked st sym d m = .ok st') :
    st'.is_uniform_by_symbol = st.is_uniform_by_symbol ∧
    st'.symbolFeedForwardMap = st.symbolFeedForwardMap ∧
    st'.symbolsCurrentBlockDependsOn = st.symbolsCurrentBlockDependsOn ∧
    st'.loopControlFlowSymbolStack = st.loopControlFlowSymbolStack ∧
    st'.symbolsWrittenToByGetAttribute = st.symbolsWrittenToByGetAttribute ∧
    st'.nextMaskId = st.nextMaskId ∧
    st'.requires_masking.length = st.requires_masking.length := by
  unfold ensureWritesAtLowerDepthAreMasked at h
  split at h
  · injection h with h2
    subst h2
    exact ⟨rfl, rfl, rfl, rfl, rfl, rfl, rfl⟩
  · split at h
    · split at h
      · exact Except.noConfusion h
      · injection h with h2
        subst h2
        exact ⟨rfl, rfl, rfl, rfl, rfl, rfl, markAndRemain_length _ _ _⟩
    · injection h with h2
      subst h2
      exact ⟨rfl, rfl, rfl, rfl, rfl, rfl, rfl⟩

/-- `processReads` keeps everything but the feed-forward map, the usage
table and the masking vector; the edges it adds all have a read symbol as
source. -/
theorem processReads_spec (writes : List Symbol) (d m : Nat) :
    ∀ (reads : List Symbol) (st st' : AState),
      processReads writes d m st reads = .ok st' →
      st'.is_uniform_by_symbol = st.is_uniform_by_symbol ∧
      st'.symbolsCurrentBlockDependsOn = st.symbolsCurrentBlockDependsOn ∧
      st'.loopControlFlowSymbolStack = st.loopControlFlowSymbolStack ∧
      st'.symbolsWrittenToByGetAttribute
        = st.symbolsWrittenToByGetAttribute ∧
      st'.nextMaskId = st.nextMaskId ∧
      st'.requires_masking.length = st.requires_masking.length ∧
      (∀ e ∈ st'.symbolFeedForwardMap,
        e ∈ st.symbolFeedForwardMap ∨ e.1 ∈ reads) := by
  intro reads
  induction reads with
  | nil =>
      intro st st' h
      obtain rfl := foldE_nil_ok _ _ _ h
      exact ⟨rfl, rfl, rfl, rfl, rfl, rfl, fun e he => .inl he⟩
  | cons r rs ih =>
      intro st st' h
      obtain ⟨st1, hone, hrest⟩ := foldE_cons_ok _ _ _ _ _ h
      obtain ⟨e1, eEdges, e2, e3, e4, e5, e6⟩ := ensure_frame _ _ _ _ _ hone
      obtain ⟨f1, f2, f3, f4, f5, f6, f7⟩ := ih st1 st' hrest
      refine ⟨f1.trans e1, f2.trans e2, f3.trans e3, f4.trans e4,
        f5.trans e5, f6.trans e6, ?_⟩
      intro e he
      rcases f7 e he with he1 | he1
      · rw [eEdges] at he1
        dsimp only at he1
        rcases List.mem_append.mp he1 with he2 | he2
        · exact .inl he2
        · obtain ⟨w, _, rfl⟩ := List.mem_map.mp he2
          exact .inr (List.mem_cons_self r rs)
      · exact .inr (List.mem_cons_of_mem r he1)

/-- Every edge added for the enclosing conditions has a condition symbol as
its source. -/
theorem conditionEdges_sources (writes : List Symbol) :
    ∀ (deps : List Symbol) (acc : List (Symbol × Symbol))
      (e : Symbol × Symbol),
      e ∈ deps.foldl (fun acc c =>
          acc ++ (writes.filter (fun w => w ≠ c)).map (fun w => (c, w))) acc →
      e ∈ acc ∨ e.1 ∈ deps := by
  intro deps
  induction deps with
  | nil => intro acc e he; exact .inl he
  | cons c cs ih =>
      intro acc e he
      rcases ih _ e he with he1 | he1
      · rcases List.mem_append.mp he1 with he2 | he2
        · exact .inl he2
        · obtain ⟨w, _, rfl⟩ := List.mem_map.mp he2
          exact .inr (List.mem_cons_self c cs)
      · exact .inr (List.mem_cons_of_mem c he1)

theorem pushDependsOn_ok (st st' : AState) (reads : List Symbol)
    (h : pushDependsOn st reads = .ok st') :
    ∃ c, reads = [c] ∧
      st' = { st with symbolsCurrentBlockDependsOn :=
        st.symbolsCurrentBlockDependsOn ++ [c] } := by
  unfold pushDependsOn at h
  split at h
  · injection h with h2
    exact ⟨_, rfl, h2.symm⟩
  · exact Except.noConfusion h

theorem popDependsOn_ok (st st' : AState) (reads : List Symbol)
    (h : popDependsOn st reads = .ok st') :
    st' = { st with symbolsCurrentBlockDependsOn :=
      st.symbolsCurrentBlockDependsOn.dropLast } := by
  unfold popDependsOn at h
  split at h
  · split at h
    · split at h
      · injection h with h2
        exact h2.symm
      · exact Except.noConfusion h
    · exact Except.noConfusion h
  · exact Except.noConfusion h

theorem popLoopControl_ok (st st' : AState) (reads : List Symbol)
    (h : popLoopControl st reads = .ok st') :
    st' = { st with loopControlFlowSymbolStack :=
      st.loopControlFlowSymbolStack.dropLast } := by
  unfold popLoopControl at h
  split at h
  · split at h
    · split at h
      · injection h with h2
        exact h2.symm
      · exact Except.noConfusion h
    · exact Except.noConfusion h
  · exact Except.noConfusion h

/-- `processBreakOp` only touches the feed-forward map (adding edges whose
sources are enclosing-condition symbols) and the usage table. -/
theorem processBreakOp_frame (st st' : AState) (wbd wm op : Nat)
    (h : processBreakOp st wbd wm op = .ok st') :
    st'.is_uniform_by_symbol = st.is_uniform_by_symbol ∧
    st'.symbolsCurrentBlockDependsOn = st.symbolsCurrentBlockDependsOn ∧
    st'.loopControlFlowSymbolStack = st.loopControlFlowSymbolStack ∧
    st'.symbolsWrittenToByGetAttribute = st.symbolsWrittenToByGetAttribute ∧
    st'.nextMaskId = st.nextMaskId ∧
    st'.requires_masking = st.requires_masking ∧
    (∀ e ∈ st'.symbolFeedForwardMap,
      e ∈ st.symbolFeedForwardMap ∨
        e.1 ∈ st.symbolsCurrentBlockDependsOn) := by
  unfold processBreakOp at h
  split at h
  · exact Except.noConfusion h
  · split at h
    · exact Except.noConfusion h
    · injection h with h2
      subst h2
      refine ⟨rfl, rfl, rfl, rfl, rfl, rfl, ?_⟩
      intro e he
      dsimp only at he
      rcases List.mem_append.mp he with he1 | he1
      · exact .inl he1
      · obtain ⟨c, hc, rfl⟩ := List.mem_map.mp he1
        exact .inr (List.drop_subset _ _ hc)

/-- The straight-line part of one op (seed the arguments, process reads,
record writes, add condition edges) preserves the walk invariant, grows the
table monotonically, and leaves every read symbol with a table entry. -/
theorem straight_inv (opcode : Opcode) (d wd m wm opIndex : Nat)
    (st0 st2 : AState)
    (hpr : processReads (writesOf opcode) d m
        { st0 with is_uniform_by_symbol :=
            seedArgSymbols st0.is_uniform_by_symbol opcode.args }
        (readsOf opcode) = .ok st2)
    (hInv : WalkInv st0) :
    WalkInv { st2 with
        usageInfoBySymbol := recordWrites st2.usageInfoBySymbol
          (writesOf opcode) wd wm opIndex,
        symbolFeedForwardMap := st2.symbolFeedForwardMap ++
          conditionEdges st2.symbolsCurrentBlockDependsOn
            (writesOf opcode) } ∧
    StepExt st0 { st2 with
        usageInfoBySymbol := recordWrites st2.usageInfoBySymbol
          (writesOf opcode) wd wm opIndex,
        symbolFeedForwardMap := st2.symbolFeedForwardMap ++
          conditionEdges st2.symbolsCurrentBlockDependsOn
            (writesOf opcode) } ∧
    (∀ r ∈ readsOf opcode, InDom st2.is_uniform_by_symbol r) := by
  obtain ⟨hTrue, hSrc, hDeps, hLoop⟩ := hInv
  obtain ⟨p1, p2, p3, p4, p5, p6, p7⟩ := processReads_spec _ _ _ _ _ _ hpr
  dsimp only at p1 p2 p3 p4 p5 p6
  have hu2 : st2.is_uniform_by_symbol
      = seedArgSymbols st0.is_uniform_by_symbol opcode.args := p1
  have hmono : ∀ s, InDom st0.is_uniform_by_symbol s →
      InDom st2.is_uniform_by_symbol s := by
    intro s hs
    rw [hu2]
    exact seedArgs_domMono _ _ _ hs
  have hreads : ∀ r ∈ readsOf opcode, InDom st2.is_uniform_by_symbol r := by
    intro r hr
    obtain ⟨a, ha, rfl⟩ := mem_readsOf _ _ hr
    rw [hu2]
    exact seedArgs_mem_dom _ _ _ ha
  refine ⟨⟨?_, ?_, ?_, ?_⟩, ⟨?_, ?_⟩, hreads⟩
  · intro s b hs
    dsimp only at hs
    rw [hu2] at hs
    exact seedArgs_alltrue _ _ hTrue s b hs
  · intro e he
    dsimp only at he ⊢
    rcases List.mem_append.mp he with he1 | he1
    · rcases p7 e he1 with he2 | he2
      · dsimp only at he2
        exact hmono _ (hSrc e he2)
      · obtain ⟨a, ha, hae⟩ := mem_readsOf _ _ he2
        rw [hu2, ← hae]
        exact seedArgs_mem_dom _ _ _ ha
    · have := conditionEdges_sources (writesOf opcode)
        st2.symbolsCurrentBlockDependsOn [] e he1
      rcases this with h0 | h0
      · simp at h0
      · rw [p2] at h0
        exact hmono _ (hDeps _ h0)
  · intro s hs
    dsimp only at hs ⊢
    rw [p2] at hs
    exact hmono _ (hDeps _ hs)
  · intro s hs
    dsimp only at hs ⊢
    rw [p3] at hs
    exact hmono _ (hLoop _ hs)
  · intro s hs
    dsimp only
    exact hmono _ hs
  · dsimp only
    exact p6

theorem StepExt_of_frame (st st' : AState)
    (hu : st'.is_uniform_by_symbol = st.is_uniform_by_symbol)
    (hlen : st'.requires_masking.length = st.requires_masking.length) :
    StepExt st st' :=
  ⟨fun s hs => by rw [InDom, hu]; exact hs, hlen⟩

theorem WalkInv_transfer (st st' : AState)
    (hu : st'.is_uniform_by_symbol = st.is_uniform_by_symbol)
    (he : st'.symbolFeedForwardMap = st.symbolFeedForwardMap)
    (hd : st'.symbolsCurrentBlockDependsOn = st.symbolsCurrentBlockDependsOn)
    (hl : st'.loopControlFlowSymbolStack = st.loopControlFlowSymbolStack)
    (h : WalkInv st) : WalkInv st' := by
  rw [WalkInv, hu, he, hd, hl]
  exact h

theorem WalkInv_push_dep (st : AState) (c : Symbol) (h : WalkInv st)
    (hc : InDom st.is_uniform_by_symbol c) :
    WalkInv { st with symbolsCurrentBlockDependsOn :=
      st.symbolsCurrentBlockDependsOn ++ [c] } := by
  refine ⟨h.1, h.2.1, ?_, h.2.2.2⟩
  intro s hs
  rcases List.mem_append.mp hs with hs1 | hs1
  · exact h.2.2.1 s hs1
  · rw [List.mem_singleton.mp hs1]
    exact hc

theorem WalkInv_push_loop (st : AState) (c : Symbol) (h : WalkInv st)
    (hc : InDom st.is_uniform_by_symbol c) :
    WalkInv { st with loopControlFlowSymbolStack :=
      st.loopControlFlowSymbolStack ++ [c] } := by
  refine ⟨h.1, h.2.1, h.2.2.1, ?_⟩
  intro s hs
  rcases List.mem_append.mp hs with hs1 | hs1
  · exact h.2.2.2 s hs1
  · rw [List.mem_singleton.mp hs1]
    exact hc

theorem WalkInv_drop_dep (st : AState) (h : WalkInv st) :
    WalkInv { st with symbolsCurrentBlockDependsOn :=
      st.symbolsCurrentBlockDependsOn.dropLast } :=
  ⟨h.1, h.2.1,
    fun s hs => h.2.2.1 s (List.dropLast_subset _ hs), h.2.2.2⟩

theorem WalkInv_drop_loop (st : AState) (h : WalkInv st) :
    WalkInv { st with loopControlFlowSymbolStack :=
      st.loopControlFlowSymbolStack.dropLast } :=
  ⟨h.1, h.2.1, h.2.2.1,
    fun s hs => h.2.2.2 s (List.dropLast_subset _ hs)⟩

theorem break_inv (st st' : AState) (wbd wm op : Nat)
    (h : processBreakOp st wbd wm op = .ok st') (hInv : WalkInv st) :
    WalkInv st' ∧ StepExt st st' := by
  obtain ⟨e1, e2, e3, e4, e5, e6, e7⟩ := processBreakOp_frame _ _ _ _ _ h
  refine ⟨⟨?_, ?_, ?_, ?_⟩, ?_, ?_⟩
  · rw [e1]; exact hInv.1
  · intro e he
    rw [e1]
    rcases e7 e he with he1 | he1
    · exact hInv.2.1 e he1
    · exact hInv.2.2.1 _ he1
  · rw [e2, e1]; exact hInv.2.2.1
  · rw [e3, e1]; exact hInv.2.2.2
  · intro s hs; rwa [e1]
  · rw [e6]

/-- A completed walk of any op range preserves the walk invariant, only
grows the uniformity table, and keeps the length of the masking vector. -/
theorem walk_inv (ir : LayerIR) :
    ∀ (fuel opIndex endop d wd m wm : Nat) (st st' : AState),
      discoverSymbolsBetween ir fuel opIndex endop d wd m wm st = .ok st' →
      WalkInv st → WalkInv st' ∧ StepExt st st' := by
  intro fuel
  induction fuel with
  | zero =>
      intro opIndex endop d wd m wm st st' h
      exact absurd h (by simp [discoverSymbolsBetween])
  | succ fuel ih =>
      intro opIndex endop d wd m wm st0 st' h hInv
      simp only [discoverSymbolsBetween] at h
      split at h
      case isFalse =>
        injection h with h2
        subst h2
        exact ⟨hInv, StepExt_rfl _⟩
      case isTrue hlt =>
      split at h
      case h_1 => exact Except.noConfusion h
      case h_2 opcode hops =>
      split at h
      case h_1 => exact Except.noConfusion h
      case h_2 st2 hpr =>
      obtain ⟨hInv4, hExt04, hreads2⟩ :=
        straight_inv opcode d wd m wm opIndex st0 st2 hpr hInv
      split at h
      case h_1 => exact Except.noConfusion h
      case h_2 st5 hdisp =>
      split at h
      case h_1 => exact Except.noConfusion h
      case h_2 st6 hbreak =>
      -- settle the dispatch: WalkInv st5 and StepExt st0 st5
      have hst5 : WalkInv st5 ∧ StepExt st0 st5 := by
        split at hdisp
        case isFalse =>
          injection hdisp with h2
          subst h2
          exact ⟨hInv4, hExt04⟩
        case isTrue hj =>
        split at hdisp
        case isTrue hifname =>
          -- the `if` op
          split at hdisp
          case h_1 => exact Except.noConfusion hdisp
          case h_2 stA hpush =>
          split at hdisp
          case h_1 => exact Except.noConfusion hdisp
          case h_2 stB hw1 =>
          split at hdisp
          case h_1 => exact Except.noConfusion hdisp
          case h_2 stC hw2 =>
          obtain ⟨c, hre, rfl⟩ := pushDependsOn_ok _ _ _ hpush
          have hcdom : InDom st2.is_uniform_by_symbol c :=
            hreads2 c (by rw [hre]; exact List.mem_singleton.mpr rfl)
          have hInvA := WalkInv_push_dep _ c hInv4 hcdom
          obtain ⟨hInvB, hExtB⟩ := ih _ _ _ _ _ _ _ _ hw1 hInvA
          obtain ⟨hInvC, hExtC⟩ := ih _ _ _ _ _ _ _ _ hw2 hInvB
          have hpop := popDependsOn_ok _ _ _ hdisp
          subst hpop
          refine ⟨WalkInv_drop_dep _ hInvC, ?_⟩
          exact StepExt_trans hExt04 (StepExt_trans
            (StepExt_of_frame _ _ rfl rfl) (StepExt_trans hExtB
              (StepExt_trans hExtC (StepExt_of_frame _ _ rfl rfl))))
        case isFalse hifname =>
          split at hdisp
          case isTrue hloopname =>
            split at hdisp
            case h_1 => exact Except.noConfusion hdisp
            case h_2 stA hw0 =>
            split at hdisp
            case h_1 => exact Except.noConfusion hdisp
            case h_2 stB hpush =>
            split at hdisp
            case h_2 => exact Except.noConfusion hdisp
            case h_1 c hre =>
            split at hdisp
            case h_1 => exact Except.noConfusion hdisp
            case h_2 stC hw1 =>
            split at hdisp
            case h_1 => exact Except.noConfusion hdisp
            case h_2 stD hw2 =>
            split at hdisp
            case h_1 => exact Except.noConfusion hdisp
            case h_2 stE hw3 =>
            split at hdisp
            case h_1 => exact Except.noConfusion hdisp
            case h_2 condArg hhead =>
            split at hdisp
            case h_1 => exact Except.noConfusion hdisp
            case h_2 stF hens =>
            split at hdisp
            case h_1 => exact Except.noConfusion hdisp
            case h_2 stG hpopd =>
            obtain ⟨hInvA, hExtA⟩ := ih _ _ _ _ _ _ _ _ hw0 hInv4
            obtain ⟨c0, hre0, rfl⟩ := pushDependsOn_ok _ _ _ hpush
            rw [hre0] at hre
            obtain ⟨rfl, -⟩ := List.cons.inj hre
            have hc0dom : InDom stA.is_uniform_by_symbol c0 :=
              hExtA.1 c0 (hreads2 c0
                (by rw [hre0]; exact List.mem_singleton.mpr rfl))
            have hInvB := WalkInv_push_dep
              { stA with nextMaskId := stA.nextMaskId + 1 } c0 hInvA hc0dom
            have hInvB1 := WalkInv_push_loop _ c0 hInvB hc0dom
            obtain ⟨hInvC, hExtC⟩ := ih _ _ _ _ _ _ _ _ hw1 hInvB1
            obtain ⟨hInvD, hExtD⟩ := ih _ _ _ _ _ _ _ _ hw2 hInvC
            obtain ⟨hInvE, hExtE⟩ := ih _ _ _ _ _ _ _ _ hw3 hInvD
            obtain ⟨e1, e2, e3, e4, e5, e6, e7⟩ := ensure_frame _ _ _ _ _ hens
            have hInvF := WalkInv_transfer stE stF e1 e2 e3 e4 hInvE
            have hpop2 := popDependsOn_ok _ _ _ hpopd
            subst hpop2
            have hpop3 := popLoopControl_ok _ _ _ hdisp
            subst hpop3
            refine ⟨WalkInv_drop_loop _ (WalkInv_drop_dep _ hInvF), ?_⟩
            exact StepExt_trans hExt04 (StepExt_trans hExtA
              (StepExt_trans (StepExt_of_frame _ _ rfl rfl)
                (StepExt_trans hExtC (StepExt_trans hExtD
                  (StepExt_trans hExtE (StepExt_trans
                    (StepExt_of_frame _ _ e1 e7)
                    (StepExt_of_frame _ _ rfl rfl)))))))
          case isFalse hloopname =>
            split at hdisp
            case isTrue hfn =>
              obtain ⟨hInvF, hExtF⟩ := ih _ _ _ _ _ _ _ _ hdisp hInv4
              exact ⟨hInvF, StepExt_trans hExt04 hExtF⟩
            case isFalse hfn => exact Except.noConfusion hdisp
      obtain ⟨hInv5, hExt05⟩ := hst5
      -- the break op
      have hst6 : WalkInv st6 ∧ StepExt st0 st6 := by
        split at hbreak
        case isTrue =>
          obtain ⟨hI, hE⟩ := break_inv _ _ _ _ _ hbreak hInv5
          exact ⟨hI, StepExt_trans hExt05 hE⟩
        case isFalse =>
          injection hbreak with h2
          subst h2
          exact ⟨hInv5, hExt05⟩
      obtain ⟨hInv6, hExt06⟩ := hst6
      -- the getattribute collection and the tail of the range
      have hInv7 : WalkInv (if opcode.opname = "getattribute" then
          { st6 with symbolsWrittenToByGetAttribute :=
            st6.symbolsWrittenToByGetAttribute ++ writesOf opcode }
          else st6) := by
        split
        · exact hInv6
        · exact hInv6
      obtain ⟨hInv', hExt'⟩ := ih _ _ _ _ _ _ _ _ h hInv7
      refine ⟨hInv', StepExt_trans hExt06 (StepExt_trans ?_ hExt')⟩
      split
      · exact ⟨fun _ hs => hs, rfl⟩
      · exact StepExt_rfl _

/-- `foldE` of invariant-preserving steps preserves the invariant. -/
theorem foldE_walk_inv {α : Type} (f : AState → α → Except Err AState)
    (hf : ∀ st x st', f st x = .ok st' → WalkInv st →
      WalkInv st' ∧ StepExt st st') :
    ∀ (l : List α) (st st' : AState), foldE f st l = .ok st' →
      WalkInv st → WalkInv st' ∧ StepExt st st' := by
  intro l
  induction l with
  | nil =>
      intro st st' h hInv
      obtain rfl := foldE_nil_ok _ _ _ h
      exact ⟨hInv, StepExt_rfl _⟩
  | cons x xs ih =>
      intro st st' h hInv
      obtain ⟨st1, hone, hrest⟩ := foldE_cons_ok _ _ _ _ _ h
      obtain ⟨hInv1, hExt1⟩ := hf st x st1 hone hInv
      obtain ⟨hInv2, hExt2⟩ := ih st1 st' hrest hInv1
      exact ⟨hInv2, StepExt_trans hExt1 hExt2⟩

theorem initPassNonParam_inv (ir : LayerIR) (fuel mainMask : Nat)
    (st st' : AState) (h : initPassNonParam ir fuel mainMask st = .ok st')
    (hInv : WalkInv st) : WalkInv st' ∧ StepExt st st' := by
  refine foldE_walk_inv _ ?_ _ _ _ h hInv
  intro st x st' hfx hI
  split at hfx
  · exact walk_inv ir _ _ _ _ _ _ _ _ _ hfx hI
  · injection hfx with h2
    subst h2
    exact ⟨hI, StepExt_rfl _⟩

theorem initPassParam_inv (ir : LayerIR) (fuel mainMask : Nat)
    (st st' : AState) (h : initPassParam ir fuel mainMask st = .ok st')
    (hInv : WalkInv st) : WalkInv st' ∧ StepExt st st' := by
  refine foldE_walk_inv _ ?_ _ _ _ h hInv
  intro st x st' hfx hI
  split at hfx
  · exact walk_inv ir _ _ _ _ _ _ _ _ _ hfx hI
  · injection hfx with h2
    subst h2
    exact ⟨hI, StepExt_rfl _⟩

theorem outputEnsurePass_inv (ir : LayerIR) (mainMask : Nat)
    (st st' : AState) (h : outputEnsurePass ir mainMask st = .ok st')
    (hInv : WalkInv st) : WalkInv st' ∧ StepExt st st' := by
  refine foldE_walk_inv _ ?_ _ _ _ h hInv
  intro st x st' hfx hI
  split at hfx
  · obtain ⟨e1, e2, e3, e4, e5, e6, e7⟩ := ensure_frame _ _ _ _ _ hfx
    exact ⟨WalkInv_transfer _ _ e1 e2 e3 e4 hI, StepExt_of_frame _ _ e1 e7⟩
  · injection hfx with h2
    subst h2
    exact ⟨hI, StepExt_rfl _⟩

/-- Inversion of a completed `discoverVaryingAndMaskingOfLayer`: names the
intermediate states of the four walk passes and the three propagation
passes. -/
theorem pipeline_ok_elim (ir : LayerIR) (prev : BackendTables) (fuel : Nat)
    (stF : AState)
    (h : discoverVaryingAndMaskingOfLayer ir prev fuel = .ok stF) :
    prev.requires_masking = [] ∧
    ∃ (st1 st2 st3 st4 : AState) (t1 t2 t3 : List (Symbol × Bool)),
      initPassNonParam ir fuel 0
        { is_uniform_by_symbol := prev.is_uniform_by_symbol,
          requires_masking := List.replicate ir.ops.length false,
          nextMaskId := 1 } = .ok st1 ∧
      initPassParam ir fuel 0 st1 = .ok st2 ∧
      discoverSymbolsBetween ir fuel ir.maincodebegin ir.maincodeend 0 0 0 0
        st2 = .ok st3 ∧
      outputEnsurePass ir 0 st3 = .ok st4 ∧
      feedKeySeedPass st4.symbolFeedForwardMap fuel st4.is_uniform_by_symbol
        = .ok t1 ∧
      outputParamMarkPass ir st4.symbolFeedForwardMap fuel t1 = .ok t2 ∧
      getAttrMarkPass st4.symbolFeedForwardMap fuel t2
        st4.symbolsWrittenToByGetAttribute = .ok t3 ∧
      stF = { st4 with is_uniform_by_symbol := t3 } := by
  simp only [discoverVaryingAndMaskingOfLayer] at h
  split at h
  case isFalse => exact Except.noConfusion h
  case isTrue hempty =>
  split at h
  case h_1 => exact Except.noConfusion h
  case h_2 st1 e1 =>
  split at h
  case h_1 => exact Except.noConfusion h
  case h_2 st2 e2 =>
  split at h
  case h_1 => exact Except.noConfusion h
  case h_2 st3 e3 =>
  split at h
  case h_1 => exact Except.noConfusion h
  case h_2 st4 e4 =>
  split at h
  case h_1 => exact Except.noConfusion h
  case h_2 t1 e5 =>
  split at h
  case h_1 => exact Except.noConfusion h
  case h_2 t2 e6 =>
  split at h
  case h_1 => exact Except.noConfusion h
  case h_2 t3 e7 =>
  injection h with h2
  exact ⟨hempty, st1, st2, st3, st4, t1, t2, t3, e1, e2, e3, e4, e5, e6, e7,
    h2.symm⟩

/-- A guarded fold of `recursivelyMarkNonUniform` over a root list: starting
from an edge-closed table with all edge sources present, it preserves varying
entries, makes every guarded root varying, adds only symbols reachable from
guarded roots, and keeps the table edge-closed. -/
theorem markFold_spec (edges : List (Symbol × Symbol)) (fuel : Nat)
    (g : Symbol → Bool)
    (f : List (Symbol × Bool) → Symbol → Except Err (List (Symbol × Bool)))
    (hf : ∀ t x, f t x =
      if g x then recursivelyMarkNonUniform edges fuel t x else .ok t) :
    ∀ (roots : List Symbol) (t t' : List (Symbol × Bool)),
      SourcesInDom edges t →
      EdgeClosedUpTo edges t (fun _ => False) →
      foldE f t roots = .ok t' →
      (∀ s, IsVarying t s → IsVarying t' s) ∧
      (∀ x ∈ roots, g x = true → IsVarying t' x) ∧
      (∀ s, IsVarying t' s →
          IsVarying t s ∨ ∃ x ∈ roots, g x = true ∧ Reaches edges x s) ∧
      EdgeClosedUpTo edges t' (fun _ => False) ∧
      (∀ s, InDom t s → InDom t' s) := by
  intro roots
  induction roots with
  | nil =>
      intro t t' hsrc hcl h
      obtain rfl := foldE_nil_ok _ _ _ h
      exact ⟨fun _ hs => hs, by simp, fun s hs => .inl hs, hcl,
        fun _ hs => hs⟩
  | cons x xs ih =>
      intro t t' hsrc hcl h
      obtain ⟨t1, hone, hrest⟩ := foldE_cons_ok _ _ _ _ _ h
      rw [hf] at hone
      by_cases hg : g x = true
      · rw [if_pos hg] at hone
        obtain ⟨m1, m2, m3, m4, m5⟩ := mark_spec edges fuel t x
          (fun _ => False) t1 hsrc
          (closedUpTo_mono edges t (fun b hb => .inr hb) hcl) hone
        obtain ⟨n1, n2, n3, n4, n5⟩ := ih t1 t'
          (fun e he => m5 e.1 (hsrc e he)) m4 hrest
        refine ⟨fun s hs => n1 s (m1 s hs), ?_, ?_, n4,
          fun s hs => n5 s (m5 s hs)⟩
        · intro y hy hgy
          rcases List.mem_cons.mp hy with rfl | hy'
          · exact n1 y m2
          · exact n2 y hy' hgy
        · intro s hs
          rcases n3 s hs with hs1 | ⟨y, hy, hgy, hreach⟩
          · rcases m3 s hs1 with hs0 | hreach
            · exact .inl hs0
            · exact .inr ⟨x, List.mem_cons_self x xs, hg, hreach⟩
          · exact .inr ⟨y, List.mem_cons_of_mem x hy, hgy, hreach⟩
      · rw [if_neg hg] at hone
        injection hone with h2
        subst h2
        obtain ⟨n1, n2, n3, n4, n5⟩ := ih t t' hsrc hcl hrest
        refine ⟨n1, ?_, ?_, n4, n5⟩
        · intro y hy hgy
          rcases List.mem_cons.mp hy with rfl | hy'
          · exact absurd hgy hg
          · exact n2 y hy' hgy
        · intro s hs
          rcases n3 s hs with hs1 | ⟨y, hy, hgy, hreach⟩
          · exact .inl hs1
          · exact .inr ⟨y, List.mem_cons_of_mem x hy, hgy, hreach⟩

/-- The varying seeds actually used by the code: feed-forward keys that are
globals with a varying name or are (non-output) parameters, declared output
parameters, and `getattribute` destinations. -/
def CodeVaryingSeed (ir : LayerIR) (st : AState) (s : Symbol) : Prop :=
  ((∃ e ∈ st.symbolFeedForwardMap, e.1 = s) ∧ seedIsUniform s = false) ∨
  (s ∈ foreachParam ir ∧ s.symtype = SymType.OutputParam) ∨
  s ∈ st.symbolsWrittenToByGetAttribute

/-- Master characterization: after a completed fresh-state analysis, a symbol
is recorded varying exactly when some code seed reaches it through the
feed-forward graph (in zero or more steps). -/
theorem analysis_varying_iff (ir : LayerIR) (fuel : Nat) (stF : AState)
    (h : discoverVaryingAndMaskingOfLayer ir {} fuel = .ok stF) :
    ∀ sym, alookup stF.is_uniform_by_symbol sym = some false ↔
      ∃ s, CodeVaryingSeed ir stF s ∧
        Reaches stF.symbolFeedForwardMap s sym := by
  obtain ⟨hempty, st1, st2, st3, st4, t1, t2, t3, e1, e2, e3, e4, e5, e6,
    e7, rfl⟩ := pipeline_ok_elim ir {} fuel stF h
  have hInv0 : WalkInv
      { is_uniform_by_symbol := ({} : BackendTables).is_uniform_by_symbol,
        requires_masking := List.replicate ir.ops.length false,
        nextMaskId := 1 } := by
    refine ⟨fun s b hs => ?_, fun e he => ?_, fun s hs => ?_,
      fun s hs => ?_⟩
    · exact nomatch hs
    · exact absurd he (by simp)
    · exact absurd hs (by simp)
    · exact absurd hs (by simp)
  obtain ⟨hInv1, _⟩ := initPassNonParam_inv ir fuel 0 _ _ e1 hInv0
  obtain ⟨hInv2, _⟩ := initPassParam_inv ir fuel 0 _ _ e2 hInv1
  obtain ⟨hInv3, _⟩ := walk_inv ir _ _ _ _ _ _ _ _ _ e3 hInv2
  obtain ⟨hInv4, _⟩ := outputEnsurePass_inv ir 0 _ _ e4 hInv3
  have halltrue := hInv4.1
  have hsrc := hInv4.2.1
  have hclosed0 : EdgeClosedUpTo st4.symbolFeedForwardMap
      st4.is_uniform_by_symbol (fun _ => False) := by
    intro a b ha hab
    exact absurd (halltrue a false ha) (by simp)
  obtain ⟨m1, m2, m3, m4, m5⟩ := markFold_spec st4.symbolFeedForwardMap fuel
    (fun r => ! seedIsUniform r) _
    (by
      intro t x
      by_cases hx : seedIsUniform x = true
      · simp [hx]
      · simp [hx, Bool.not_eq_true _ ▸ hx]) _ _ _ hsrc hclosed0 e5
  obtain ⟨n1, n2, n3, n4, n5⟩ := markFold_spec st4.symbolFeedForwardMap fuel
    (fun s => decide (s.symtype = SymType.OutputParam)) _
    (by
      intro t x
      by_cases hx : x.symtype = SymType.OutputParam
      · simp [hx]
      · simp [hx]) _ _ _
    (fun e he => m5 e.1 (hsrc e he)) m4 e6
  obtain ⟨o1, o2, o3, o4, o5⟩ := markFold_spec st4.symbolFeedForwardMap fuel
    (fun _ => true) _ (by intro t x; simp) _ _ _
    (fun e he => n5 e.1 (m5 e.1 (hsrc e he))) n4 e7
  intro sym
  constructor
  · intro hv
    rcases o3 sym hv with hv2 | ⟨x, hx, _, hreach⟩
    · rcases n3 sym hv2 with hv1 | ⟨x, hx, hgx, hreach⟩
      · rcases m3 sym hv1 with hv0 | ⟨x, hx, hgx, hreach⟩
        · exact absurd (halltrue sym false hv0) (by simp)
        · refine ⟨x, .inl ⟨?_, ?_⟩, hreach⟩
          · have hx' := (mem_dedup _ _).mp hx
            obtain ⟨e, he, heq⟩ := List.mem_map.mp hx'
            exact ⟨e, he, heq⟩
          · simpa using hgx
      · exact ⟨x, .inr (.inl ⟨hx, by simpa using hgx⟩), hreach⟩
    · exact ⟨x, .inr (.inr hx), hreach⟩
  · rintro ⟨s0, hseed, hreach⟩
    have hs0 : IsVarying t3 s0 := by
      rcases hseed with ⟨⟨e, he, heq⟩, hseedU⟩ | ⟨hmem, hout⟩ | hga
      · have hx : s0 ∈ dedup (st4.symbolFeedForwardMap.map Prod.fst) :=
          (mem_dedup _ _).mpr (List.mem_map.mpr ⟨e, he, heq⟩)
        exact o1 _ (n1 _ (m2 s0 hx (by simp [hseedU])))
      · exact o1 _ (n2 s0 hmem (by simp [hout]))
      · exact o2 s0 hga rfl
    exact varying_of_reaches _ _ o4 _ _ hreach hs0

/-- After a completed fresh-state analysis, the masking vector has one flag
per op. -/
theorem pipeline_masking_length (ir : LayerIR) (fuel : Nat) (stF : AState)
    (h : discoverVaryingAndMaskingOfLayer ir {} fuel = .ok stF) :
    stF.requires_masking.length = ir.ops.length := by
  obtain ⟨-, st1, st2, st3, st4, t1, t2, t3, e1, e2, e3, e4, -, -, -, rfl⟩ :=
    pipeline_ok_elim ir {} fuel stF h
  have hInv0 : WalkInv
      { is_uniform_by_symbol := ({} : BackendTables).is_uniform_by_symbol,
        requires_masking := List.replicate ir.ops.length false,
        nextMaskId := 1 } := by
    refine ⟨fun s b hs => ?_, fun e he => ?_, fun s hs => ?_,
      fun s hs => ?_⟩
    · exact nomatch hs
    · exact absurd he (by simp)
    · exact absurd hs (by simp)
    · exact absurd hs (by simp)
  obtain ⟨hInv1, hE1⟩ := initPassNonParam_inv ir fuel 0 _ _ e1 hInv0
  obtain ⟨hInv2, hE2⟩ := initPassParam_inv ir fuel 0 _ _ e2 hInv1
  obtain ⟨hInv3, hE3⟩ := walk_inv ir _ _ _ _ _ _ _ _ _ e3 hInv2
  obtain ⟨hInv4, hE4⟩ := outputEnsurePass_inv ir 0 _ _ e4 hInv3
  have : st4.requires_masking.length
      = (List.replicate ir.ops.length false).length :=
    (hE4.2.trans hE3.2).trans (hE2.2.trans hE1.2)
  simpa using this

/-- With an empty op stream, any completed walk leaves the state
untouched. -/
theorem walk_nil_ops (ir : LayerIR) (hops : ir.ops = []) :
    ∀ (fuel a b d wd m wm : Nat) (st st' : AState),
      discoverSymbolsBetween ir fuel a b d wd m wm st = .ok st' →
      st' = st := by
  intro fuel
  cases fuel with
  | zero =>
      intro a b d wd m wm st st' h
      exact absurd h (by simp [discoverSymbolsBetween])
  | succ fuel =>
      intro a b d wd m wm st st' h
      simp only [discoverSymbolsBetween] at h
      split at h
      case isFalse =>
        injection h with h2
        exact h2.symm
      case isTrue =>
        split at h
        case h_1 => exact Except.noConfusion h
        case h_2 opcode heq =>
          rw [hops] at heq
          simp at heq

theorem foldE_id_at {α : Type} (f : AState → α → Except Err AState)
    (st : AState)
    (hf : ∀ (x : α) (st'' : AState), f st x = .ok st'' → st'' = st) :
    ∀ (l : List α) (st' : AState), foldE f st l = .ok st' → st' = st := by
  intro l
  induction l with
  | nil => intro st' h; exact (foldE_nil_ok _ _ _ h).symm
  | cons x xs ih =>
      intro st' h
      obtain ⟨st1, hone, hrest⟩ := foldE_cons_ok _ _ _ _ _ h
      obtain rfl := hf x st1 hone
      exact ih _ hrest

theorem foldE_id_of {α : Type} (f : AState → α → Except Err AState)
    (hf : ∀ st x st', f st x = .ok st' → st' = st) :
    ∀ (l : List α) (st st' : AState), foldE f st l = .ok st' → st' = st := by
  intro l
  induction l with
  | nil => intro st st' h; exact (foldE_nil_ok _ _ _ h).symm
  | cons x xs ih =>
      intro st st' h
      obtain ⟨st1, hone, hrest⟩ := foldE_cons_ok _ _ _ _ _ h
      obtain rfl := hf st x st1 hone
      exact ih _ _ hrest

theorem ensure_id_of_empty (st : AState) (s : Symbol) (d m : Nat)
    (husage : st.usageInfoBySymbol = []) :
    ensureWritesAtLowerDepthAreMasked st s d m = .ok st := by
  unfold ensureWritesAtLowerDepthAreMasked
  rw [husage]
  rfl

/-- With no feed-forward edges, `recursivelyMarkNonUniform` just forces the
root's entry to `false`. -/
theorem mark_nil_edges (fuel : Nat) (t : List (Symbol × Bool)) (s : Symbol)
    (t' : List (Symbol × Bool))
    (h : recursivelyMarkNonUniform [] fuel t s = .ok t') :
    t' = aset t s false := by
  cases fuel with
  | zero => exact absurd h (by simp [recursivelyMarkNonUniform])
  | succ fuel =>
      simp only [recursivelyMarkNonUniform] at h
      split at h
      · have := foldE_nil_ok _ _ _ (by
          simpa [successorsOf] using h)
        exact this.symm
      · injection h with h2
        exact h2.symm

/-- The output-parameter marking pass over an empty edge set: the resulting
table maps exactly the output parameters of the list to `false`, leaving all
other lookups unchanged. -/
theorem markFold_nil_edges (fuel : Nat) :
    ∀ (params : List Symbol) (t t' : List (Symbol × Bool)),
      foldE (fun table s =>
        if s.symtype = SymType.OutputParam then
          recursivelyMarkNonUniform [] fuel table s
        else .ok table) t params = .ok t' →
      ∀ s, alookup t' s =
        if s ∈ params ∧ s.symtype = SymType.OutputParam then some false
        else alookup t s := by
  intro params
  induction params with
  | nil =>
      intro t t' h s
      obtain rfl := foldE_nil_ok _ _ _ h
      simp
  | cons p ps ih =>
      intro t t' h s
      obtain ⟨t1, hone, hrest⟩ := foldE_cons_ok _ _ _ _ _ h
      have hres := ih t1 t' hrest s
      by_cases hp : p.symtype = SymType.OutputParam
      · rw [if_pos hp] at hone
        obtain rfl := mark_nil_edges _ _ _ _ hone
        by_cases hs1 : s ∈ ps ∧ s.symtype = SymType.OutputParam
        · rw [hres, if_pos hs1,
            if_pos ⟨List.mem_cons_of_mem p hs1.1, hs1.2⟩]
        · rw [hres, if_neg hs1]
          by_cases hsp : s = p
          · subst hsp
            rw [alookup_aset_self, if_pos ⟨List.mem_cons_self s ps, hp⟩]
          · rw [alookup_aset_ne _ _ _ _ hsp]
            have : ¬ (s ∈ p :: ps ∧ s.symtype = SymType.OutputParam) := by
              rintro ⟨hmem, hout⟩
              rcases List.mem_cons.mp hmem with rfl | hmem'
              · exact hsp rfl
              · exact hs1 ⟨hmem', hout⟩
            rw [if_neg this]
      · rw [if_neg hp] at hone
        injection hone with h2
        subst h2
        rw [hres]
        by_cases hs1 : s ∈ ps ∧ s.symtype = SymType.OutputParam
        · rw [if_pos hs1, if_pos ⟨List.mem_cons_of_mem p hs1.1, hs1.2⟩]
        · rw [if_neg hs1]
          have : ¬ (s ∈ p :: ps ∧ s.symtype = SymType.OutputParam) := by
            rintro ⟨hmem, hout⟩
            rcases List.mem_cons.mp hmem with rfl | hmem'
            · exact hp hout
            · exact hs1 ⟨hmem', hout⟩
          rw [if_neg this]

/-! ## Concrete example layers used as counterexamples and witnesses -/

/-- A parameter that is NOT connected (`connected = false`). -/
def paramP : Symbol := { id := 0, name := "p", symtype := .Param }

/-- A local temporary. -/
def localL : Symbol := { id := 1, name := "l", symtype := .Local }

/-- One op, `assign l p`, reading the unconnected parameter `p` into the
local `l`. -/
def exC1 : LayerIR :=
  { symbols := [paramP, localL],
    ops := [{ opname := "assign",
              args := [{ sym := localL, read := false, write := true },
                       { sym := paramP, read := true, write := false }] }],
    maincodebegin := 0, maincodeend := 1 }

def condC1S : Symbol := { id := 0, name := "c1", symtype := .Local }
def condC2S : Symbol := { id := 1, name := "c2", symtype := .Local }
def xS : Symbol := { id := 2, name := "x", symtype := .Local }
def yS : Symbol := { id := 3, name := "y", symtype := .Local }
def zS : Symbol := { id := 4, name := "z", symtype := .Local }
def kConst : Symbol :=
  { id := 5, name := "k", symtype := .Const, is_constant := true }

/-- `if (c1) { if (c2) { x = k }; y = x }; z = x`: the symbol `x` is written
once at depth 2, then read at depth 1 (under the then-mask of `c1`) and again
at depth 0 (under the main mask). -/
def exC10 : LayerIR :=
  { symbols := [condC1S, condC2S, xS, yS, zS, kConst],
    ops :=
      [{ opname := "if",
         args := [{ sym := condC1S, read := true, write := false }],
         jumps := [4, 4] },
       { opname := "if",
         args := [{ sym := condC2S, read := true, write := false }],
         jumps := [3, 3] },
       { opname := "assign",
         args := [{ sym := xS, read := false, write := true },
                  { sym := kConst, read := true, write := false }] },
       { opname := "assign",
         args := [{ sym := yS, read := false, write := true },
                  { sym := xS, read := true, write := false }] },
       { opname := "assign",
         args := [{ sym := zS, read := false, write := true },
                  { sym := xS, read := true, write := false }] }],
    maincodebegin := 0, maincodeend := 5 }

def condC : Symbol := { id := 0, name := "c", symtype := .Local }
def condD : Symbol := { id := 1, name := "d", symtype := .Local }

/-- `if (c) { while (c) { if (d) break } }`: the `while` loop's condition
symbol `c` also governs the enclosing `if`, so at the `break` the
enclosing-condition stack is `[c, c, d]` and the loop-control stack is
`[c]`. -/
def exC8 : LayerIR :=
  { symbols := [condC, condD],
    ops :=
      [{ opname := "if",
         args := [{ sym := condC, read := true, write := false }],
         jumps := [4, 4] },
       { opname := "while",
         args := [{ sym := condC, read := true, write := false }],
         jumps := [2, 2, 4, 4] },
       { opname := "if",
         args := [{ sym := condD, read := true, write := false }],
         jumps := [4, 4] },
       { opname := "break", args := [] }],
    maincodebegin := 0, maincodeend := 4 }

/-- An output parameter that is never read, never connected. -/
def outO : Symbol :=
  { id := 0, name := "o", symtype := .OutputParam, everread := false }

/-- A layer with zero ops that declares the output parameter `o`. -/
def exC9 : LayerIR :=
  { symbols := [outO], ops := [], maincodebegin := 0, maincodeend := 0 }

def localA : Symbol := { id := 0, name := "a", symtype := .Local }
def constK : Symbol :=
  { id := 1, name := "k", symtype := .Const, is_constant := true }

/-- A one-op layer `assign a k`. -/
def exC5 : LayerIR :=
  { symbols := [localA, constK],
    ops := [{ opname := "assign",
              args := [{ sym := localA, read := false, write := true },
                       { sym := constK, read := true, write := false }] }],
    maincodebegin := 0, maincodeend := 1 }

/-- The backend tables produced by analyzing `exC5` from a fresh state. -/
def exC5Tables : BackendTables :=
  { requires_masking := [false],
    is_uniform_by_symbol := [(localA, true), (constK, true)] }

def wSym : Symbol := { id := 0, name := "w", symtype := .Local }

/-- Usage info for `w`: last written at depth 2 under mask 5, with pending
writes at depths 2 and 1 (ops 0 and 1). -/
def c2Info : UsageInfo :=
  { last_depth := 2, last_maskId := 5,
    potentially_unmasked_ops := [(2, 0), (1, 1)] }

def c2St : AState :=
  { usageInfoBySymbol := [(wSym, c2Info)],
    requires_masking := [false, false] }

/-- The state after `ensureWritesAtLowerDepthAreMasked c2St wSym 1 0`: op 0
(depth 2 > 1) is marked, the write at depth 1 stays pending, `last_depth`
drops to 1. -/
def c2Res : AState :=
  { usageInfoBySymbol :=
      [(wSym, { last_depth := 1, last_maskId := 5,
                potentially_unmasked_ops := [(1, 1)] })],
    requires_masking := [true, false] }

/-- Usage info for `w` whose last write is at depth 0 (shallower than the
read sites used against it). -/
def c4St : AState :=
  { usageInfoBySymbol :=
      [(wSym, { last_depth := 0, last_maskId := 0,
                potentially_unmasked_ops := [(0, 0)] })],
    requires_masking := [false] }

/-- The state produced by analyzing `exC1` from a fresh backend state. -/
def exC1St : AState :=
  (discoverVaryingAndMaskingOfLayer exC1 {} 10).toOption.getD default

/-- The state produced by analyzing `exC5` from a fresh backend state. -/
def exC5St : AState :=
  (discoverVaryingAndMaskingOfLayer exC5 {} 10).toOption.getD default

/-- The state produced by analyzing `exC9` from a fresh backend state. -/
def exC9St : AState :=
  (discoverVaryingAndMaskingOfLayer exC9 {} 5).toOption.getD default

/-- The varying-seed set exactly as claim C1 words it: a varying-named
global (a name the shader-globals table does not record as uniform), a
parameter marked `connected`, an `OutputParam`, or a symbol written by a
`getattribute` op. -/
def SpecVaryingSeedC1 (st : AState) (s : Symbol) : Prop :=
  (s.symtype = SymType.Global ∧ IsShaderGlobalUniformByName s.name = false) ∨
  (s.symtype = SymType.Param ∧ s.connected = true) ∨
  s.symtype = SymType.OutputParam ∨
  s ∈ st.symbolsWrittenToByGetAttribute

/-- In `exC1` no symbol of the claimed varying-seed set reaches `paramP`:
the graph is the single edge `(paramP, localL)` and neither symbol is a
claimed seed. -/
theorem exC1_no_seed_path :
    ¬ ∃ s, SpecVaryingSeedC1 exC1St s ∧
      Reaches exC1St.symbolFeedForwardMap s paramP := by
  rintro ⟨s, hseed, hreach⟩
  have hedges : exC1St.symbolFeedForwardMap = [(paramP, localL)] := rfl
  have hnotseed : ∀ s', SpecVaryingSeedC1 exC1St s' → s' ≠ paramP := by
    rintro s' (⟨hty, -⟩ | ⟨-, hconn⟩ | hty | hga) rfl
    · exact absurd hty (by decide)
    · exact absurd hconn (by decide)
    · exact absurd hty (by decide)
    · exact absurd hga (by decide)
  rcases Relation.ReflTransGen.cases_head hreach with rfl | ⟨c, hstep, htail⟩
  · exact hnotseed _ hseed rfl
  · rw [hedges] at hstep
    obtain ⟨rfl, rfl⟩ : s = paramP ∧ c = localL := by
      simpa [Prod.ext_iff] using hstep
    exact hnotseed paramP hseed rfl

/-! ## Claim C1 -/

/-- C1 counterexample: in `exC1` (`assign l p` with `p` an unconnected
parameter), `p` is not a varying seed as the claim defines seeds and no
claimed-seed path reaches it, yet the analysis records `is_uniform[p] =
false` — because the code (line 815) seeds EVERY parameter key of the
feed-forward map varying, connected or not. -/
theorem C1_counterexample :
    discoverVaryingAndMaskingOfLayer exC1 {} 10 = .ok exC1St ∧
    alookup exC1St.is_uniform_by_symbol paramP = some false ∧
    ¬ ∃ s, SpecVaryingSeedC1 exC1St s ∧
      Reaches exC1St.symbolFeedForwardMap s paramP :=
  ⟨rfl, rfl, exC1_no_seed_path⟩

/-- C1 amended: after a completed fresh-state analysis, `is_uniform[sym] =
false` iff some CODE seed reaches `sym` in the feed-forward graph, where the
code seeds are: feed-forward KEYS (symbols with at least one outgoing edge)
that are varying-named globals or are parameters (connected or not),
declared output parameters, and `getattribute` destinations. -/
theorem C1_is_uniform_iff_reachable (ir : LayerIR) (fuel : Nat)
    (st : AState) (h : discoverVaryingAndMaskingOfLayer ir {} fuel = .ok st)
    (sym : Symbol) :
    alookup st.is_uniform_by_symbol sym = some false ↔
      ∃ s, CodeVaryingSeed ir st s ∧ Reaches st.symbolFeedForwardMap s sym :=
  analysis_varying_iff ir fuel st h sym

/-- Witness for C1 at the concrete layer `exC1` and the symbol `p`. -/
theorem C1_witness :
    discoverVaryingAndMaskingOfLayer exC1 {} 10 = .ok exC1St ∧
    (alookup exC1St.is_uniform_by_symbol paramP = some false ↔
      ∃ s, CodeVaryingSeed exC1 exC1St s ∧
        Reaches exC1St.symbolFeedForwardMap s paramP) :=
  ⟨rfl, C1_is_uniform_iff_reachable exC1 10 exC1St rfl paramP⟩

/-! ## Claim C3 -/

/-- C3 counterexample: `p` in `exC1` is a `Param` with `connected = false`
and no varying seed (as the claim defines them) reaches it, so the claim
says it remains uniform; the analysis still records it varying. -/
theorem C3_counterexample :
    discoverVaryingAndMaskingOfLayer exC1 {} 10 = .ok exC1St ∧
    paramP.symtype = SymType.Param ∧
    paramP.connected = false ∧
    (¬ ∃ s, SpecVaryingSeedC1 exC1St s ∧
      Reaches exC1St.symbolFeedForwardMap s paramP) ∧
    alookup exC1St.is_uniform_by_symbol paramP = some false :=
  ⟨rfl, rfl, rfl, exC1_no_seed_path, rfl⟩

/-- C3 amended: a `Param` symbol is treated as a varying seed exactly when
it appears as a feed-forward KEY (it is read and feeds at least one edge),
regardless of its `connected` flag; a `Param` that is not a key is varying
only when some code seed reaches it. -/
theorem C3_param_varying_iff (ir : LayerIR) (fuel : Nat) (st : AState)
    (h : discoverVaryingAndMaskingOfLayer ir {} fuel = .ok st) (sym : Symbol)
    (hty : sym.symtype = SymType.Param) :
    alookup st.is_uniform_by_symbol sym = some false ↔
      ((∃ e ∈ st.symbolFeedForwardMap, e.1 = sym) ∨
        ∃ s, CodeVaryingSeed ir st s ∧
          Reaches st.symbolFeedForwardMap s sym) := by
  rw [analysis_varying_iff ir fuel st h sym]
  constructor
  · exact fun hx => .inr hx
  · rintro (⟨e, he, heq⟩ | hx)
    · exact ⟨sym, .inl ⟨⟨e, he, heq⟩, by simp [seedIsUniform, hty]⟩,
        Relation.ReflTransGen.refl⟩
    · exact hx

/-- Witness for C3 at the concrete layer `exC1` and its parameter `p`. -/
theorem C3_witness :
    discoverVaryingAndMaskingOfLayer exC1 {} 10 = .ok exC1St ∧
    paramP.symtype = SymType.Param ∧
    (alookup exC1St.is_uniform_by_symbol paramP = some false ↔
      ((∃ e ∈ exC1St.symbolFeedForwardMap, e.1 = paramP) ∨
        ∃ s, CodeVaryingSeed exC1 exC1St s ∧
          Reaches exC1St.symbolFeedForwardMap s paramP)) :=
  ⟨rfl, rfl, C3_param_varying_iff exC1 10 exC1St rfl paramP rfl⟩

/-! ## Claim C5 (amended part) -/

/-- C5 amended: the analysis is a pure function of the IR and the prior
backend tables, so a fresh-state re-analysis is identical by construction;
but invoking `discoverVaryingAndMaskingOfLayer` again for the same layer on
the tables the first run produced fails the emptiness assertion whenever the
layer has at least one op. -/
theorem C5_rerun_fails_precondition (ir : LayerIR) (fuel fuel2 : Nat)
    (st : AState)
    (h1 : discoverVaryingAndMaskingOfLayer ir {} fuel = .ok st)
    (h2 : ir.ops ≠ []) :
    discoverVaryingAndMaskingOfLayer ir (tablesOf st) fuel2
      = .error .assertRequiresMaskingNotEmpty := by
  have hlen := pipeline_masking_length ir fuel st h1
  have hne : ¬ (tablesOf st).requires_masking = [] := by
    intro hcontra
    have hz : st.requires_masking.length = 0 := by
      rw [show (tablesOf st).requires_masking = st.requires_masking from rfl]
        at hcontra
      simp [hcontra]
    rw [hlen] at hz
    exact h2 (List.length_eq_zero.mp hz)
  unfold discoverVaryingAndMaskingOfLayer
  rw [if_neg hne]

/-- Witness for C5 at the concrete layer `exC5`. -/
theorem C5_witness :
    exC5.ops ≠ [] ∧
    discoverVaryingAndMaskingOfLayer exC5 (tablesOf exC5St) 7
      = .error .assertRequiresMaskingNotEmpty :=
  ⟨by decide, C5_rerun_fails_precondition exC5 10 7 exC5St rfl (by decide)⟩

/-! ## Claim C9 -/

/-- C9 counterexample: the zero-op layer `exC9` declares the output
parameter `o`; its `requires_masking` table is empty but its `is_uniform`
table is NOT — the unconditional output-parameter marking loop (lines
840-844) inserts `o ↦ false`. -/
theorem C9_counterexample :
    (discoverVaryingAndMaskingOfLayer exC9 {} 5).map
        (fun st => (st.is_uniform_by_symbol, st.requires_masking)) =
      .ok ([(outO, false)], []) ∧
    ([(outO, false)] : List (Symbol × Bool)) ≠ [] :=
  ⟨rfl, by decide⟩

/-- C9 amended: a layer with zero ops produces an empty `requires_masking`
table, and an `is_uniform` table whose entries are exactly the layer's
declared `OutputParam` parameters, each mapped to `false`; with no output
parameters both tables are empty. -/
theorem C9_empty_layer_tables (ir : LayerIR) (fuel : Nat) (st : AState)
    (hops : ir.ops = [])
    (h : discoverVaryingAndMaskingOfLayer ir {} fuel = .ok st) :
    st.requires_masking = [] ∧
    ∀ s, alookup st.is_uniform_by_symbol s =
      if s ∈ foreachParam ir ∧ s.symtype = SymType.OutputParam
      then some false else none := by
  obtain ⟨-, st1, st2, st3, st4, t1, t2, t3, e1, e2, e3, e4, e5, e6, e7,
    rfl⟩ := pipeline_ok_elim ir {} fuel st h
  have hid1 : ∀ (stb : AState) (x : Symbol) (stb' : AState),
      (if wantsInitOpsNonParam ir x then
        discoverSymbolsBetween ir fuel x.initbegin x.initend 0 0 0 0 stb
      else .ok stb) = .ok stb' → stb' = stb := by
    intro stb x stb' hx
    split at hx
    · exact walk_nil_ops ir hops _ _ _ _ _ _ _ _ _ hx
    · injection hx with h2
      exact h2.symm
  obtain rfl := foldE_id_of _ hid1 _ _ _ e1
  have hid2 : ∀ (stb : AState) (x : Symbol) (stb' : AState),
      (if ¬ paramPassSkips ir x ∧ x.has_init_ops ∧ x.valuesource_default
      then discoverSymbolsBetween ir fuel x.initbegin x.initend 0 0 0 0 stb
      else .ok stb) = .ok stb' → stb' = stb := by
    intro stb x stb' hx
    split at hx
    · exact walk_nil_ops ir hops _ _ _ _ _ _ _ _ _ hx
    · injection hx with h2
      exact h2.symm
  obtain rfl := foldE_id_of _ hid2 _ _ _ e2
  obtain rfl := walk_nil_ops ir hops _ _ _ _ _ _ _ _ _ e3
  have hid4 : ∀ (x : Symbol) (stb' : AState),
      (if ¬ outputMaskPassSkips x ∧ x.symtype = SymType.OutputParam
      then ensureWritesAtLowerDepthAreMasked
        { is_uniform_by_symbol :=
            ({} : BackendTables).is_uniform_by_symbol,
          requires_masking := List.replicate ir.ops.length false,
          nextMaskId := 1 } x 0 0
      else .ok
        { is_uniform_by_symbol :=
            ({} : BackendTables).is_uniform_by_symbol,
          requires_masking := List.replicate ir.ops.length false,
          nextMaskId := 1 }) = .ok stb' →
      stb' =
        { is_uniform_by_symbol :=
            ({} : BackendTables).is_uniform_by_symbol,
          requires_masking := List.replicate ir.ops.length false,
          nextMaskId := 1 } := by
    intro x stb' hx
    split at hx
    · rw [ensure_id_of_empty _ _ _ _ rfl] at hx
      injection hx with h2
      exact h2.symm
    · injection hx with h2
      exact h2.symm
  obtain rfl := foldE_id_at _ _ hid4 _ _ e4
  -- the feed-forward map is empty, so the key-seeding pass is a no-op
  obtain rfl : t1 = _ := (foldE_nil_ok _ _ _ e5).symm
  -- the output parameters are marked over an empty edge set
  have htab := markFold_nil_edges fuel (foreachParam ir) _ _ e6
  obtain rfl : t3 = t2 := (foldE_nil_ok _ _ _ e7).symm
  constructor
  · rw [hops]
    rfl
  · intro s
    rw [htab s]
    by_cases hcond : s ∈ foreachParam ir ∧ s.symtype = SymType.OutputParam
    · rw [if_pos hcond, if_pos hcond]
    · rw [if_neg hcond, if_neg hcond]
      rfl

/-- Witness for C9 at the concrete zero-op layer `exC9`. -/
theorem C9_witness :
    exC9.ops = [] ∧
    (exC9St.requires_masking = [] ∧
    ∀ s, alookup exC9St.is_uniform_by_symbol s =
      if s ∈ foreachParam exC9 ∧ s.symtype = SymType.OutputParam
      then some false else none) :=
  ⟨rfl, C9_empty_layer_tables exC9 5 exC9St rfl rfl⟩

/-! ## Claim C6 -/

/-- C6: a global symbol is classified uniform by the varying-seed computation
exactly when its name is one of `renderstate, tracedata, objdata,
shadingcontext, renderer, Ci, raytype, pad0, pad1, pad2`; any other name
(including names outside the shader-globals record) classifies as varying. -/
theorem C6_uniform_global_names (s : Symbol) (h : s.symtype = SymType.Global) :
    seedIsUniform s = true ↔ s.name ∈ uniformGlobalNames := by
  have hfind : seedIsUniform s = IsShaderGlobalUniformByName s.name := by
    unfold seedIsUniform
    rw [h]
  rw [hfind,
    show IsShaderGlobalUniformByName s.name =
      (match fields.find? (fun p => p.1 == s.name) with
       | some p => p.2
       | none => false) from rfl,
    find_table_true_iff s.name fields (by decide)]
  simp [fields, uniformGlobalNames]

/-- Witness for C6 at the varying global `P` and the uniform global
`raytype`. -/
theorem C6_witness :
    ({ id := 7, name := "P", symtype := .Global } : Symbol).symtype
        = SymType.Global ∧
    (seedIsUniform { id := 7, name := "P", symtype := .Global } = true ↔
      "P" ∈ uniformGlobalNames) ∧
    (seedIsUniform { id := 8, name := "raytype", symtype := .Global } = true ↔
      "raytype" ∈ uniformGlobalNames) :=
  ⟨rfl, C6_uniform_global_names _ rfl, C6_uniform_global_names _ rfl⟩

/-! ## Claim C7 -/

/-- C7 counterexample: with an empty frozen table (a zero-op layer with no
output parameters produces one), the query fails its non-emptiness assertion
even for an absent symbol, while the claim says it never fails and returns
`true` for the absent local. -/
theorem C7_counterexample :
    isSymbolUniform [] localL = .error .assertIsUniformTableEmpty ∧
    isSymbolUniform [] localL ≠ .ok true := by
  exact ⟨rfl, by simp [isSymbolUniform, alookup]⟩

/-- C7 amended: provided the frozen table is non-empty, a symbol absent from
it is reported uniform, except an `OutputParam`, which is reported varying;
no absent symbol makes the query fail then. -/
theorem C7_absent_symbol_default (table : List (Symbol × Bool)) (sym : Symbol)
    (h1 : table ≠ []) (h2 : alookup table sym = none) :
    isSymbolUniform table sym =
      .ok (if sym.symtype = SymType.OutputParam then false else true) := by
  unfold isSymbolUniform
  rw [if_neg h1, h2]
  by_cases h : sym.symtype = SymType.OutputParam <;> simp [h]

/-- Witness for C7 at a non-empty table and the absent output parameter
`o` and absent local `l`. -/
theorem C7_witness :
    ([(wSym, true)] : List (Symbol × Bool)) ≠ [] ∧
    alookup [(wSym, true)] outO = none ∧
    isSymbolUniform [(wSym, true)] outO = .ok false ∧
    isSymbolUniform [(wSym, true)] localL = .ok true := by
  exact ⟨by simp, rfl,
    C7_absent_symbol_default [(wSym, true)] outO (by simp) rfl,
    C7_absent_symbol_default [(wSym, true)] localL (by simp) rfl⟩

/-! ## Claim C2 -/

/-- C2: when `ensureWritesAtLowerDepthAreMasked` completes on a symbol with
recorded usage info whose `last_depth` exceeds the current depth under a
different mask id, then: exactly the pending writes deeper than the current
depth are marked in `requires_masking` and dropped from the pending list,
writes at or above the current depth stay pending, every other masking flag
and every other symbol's usage info is unchanged. -/
theorem C2_ensure_masks_exactly_deeper_writes (st st' : AState) (sym : Symbol)
    (info : UsageInfo) (d m : Nat)
    (hfind : alookup st.usageInfoBySymbol sym = some info)
    (hd : info.last_depth > d) (hm : info.last_maskId ≠ m)
    (h : ensureWritesAtLowerDepthAreMasked st sym d m = .ok st') :
    alookup st'.usageInfoBySymbol sym =
      some { info with
               last_depth := d,
               potentially_unmasked_ops :=
                 info.potentially_unmasked_ops.filter (fun u => u.1 ≤ d) } ∧
    (∀ u ∈ info.potentially_unmasked_ops, u.1 > d →
        u.2 < st.requires_masking.length →
        st'.requires_masking[u.2]? = some true) ∧
    (∀ i, (∀ u ∈ info.potentially_unmasked_ops, ¬(u.1 > d ∧ u.2 = i)) →
        st'.requires_masking[i]? = st.requires_masking[i]?) ∧
    (∀ s, s ≠ sym →
        alookup st'.usageInfoBySymbol s = alookup st.usageInfoBySymbol s) := by
  simp only [ensureWritesAtLowerDepthAreMasked, hfind] at h
  rw [if_pos ⟨hd, hm⟩] at h
  by_cases hne : info.potentially_unmasked_ops = []
  · rw [if_pos hne] at h
    exact absurd h (by simp)
  · rw [if_neg hne] at h
    injection h with h2
    subst h2
    refine ⟨?_, ?_, ?_, ?_⟩
    · simp only [alookup_aset_self, markAndRemain_snd]
    · intro u hu hud hulen
      exact markAndRemain_marks d info.potentially_unmasked_ops
        st.requires_masking u hu hud hulen
    · intro i hi
      exact markAndRemain_unmarked d info.potentially_unmasked_ops
        st.requires_masking i hi
    · intro s hs
      exact alookup_aset_ne _ _ _ _ hs

/-- Witness for C2: the usage info of `w` records a deeper write (depth 2,
op 0) and a same-depth-or-shallower write (depth 1, op 1); a read at depth 1
under mask 0 marks op 0 only and keeps the depth-1 write pending. -/
theorem C2_witness :
    alookup c2St.usageInfoBySymbol wSym = some c2Info ∧
    c2Info.last_depth > 1 ∧ c2Info.last_maskId ≠ 0 ∧
    (alookup c2Res.usageInfoBySymbol wSym =
      some { c2Info with
               last_depth := 1,
               potentially_unmasked_ops :=
                 c2Info.potentially_unmasked_ops.filter (fun u => u.1 ≤ 1) } ∧
    (∀ u ∈ c2Info.potentially_unmasked_ops, u.1 > 1 →
        u.2 < c2St.requires_masking.length →
        c2Res.requires_masking[u.2]? = some true) ∧
    (∀ i, (∀ u ∈ c2Info.potentially_unmasked_ops, ¬(u.1 > 1 ∧ u.2 = i)) →
        c2Res.requires_masking[i]? = c2St.requires_masking[i]?) ∧
    (∀ s, s ≠ wSym →
        alookup c2Res.usageInfoBySymbol s = alookup c2St.usageInfoBySymbol s))
    := by
  exact ⟨rfl, by decide, by decide,
    C2_ensure_masks_exactly_deeper_writes c2St c2Res wSym c2Info 1 0 rfl
      (by decide) (by decide) rfl⟩

/-! ## Claim C4 -/

/-- C4 counterexample: a call on a symbol present in the usage table whose
masking condition does not hold (`last_depth = 0`, read at depth 5) leaves
`last_depth` at 0, not the claimed current depth 5. -/
theorem C4_counterexample :
    ensureWritesAtLowerDepthAreMasked c4St wSym 5 7 = .ok c4St ∧
    (alookup c4St.usageInfoBySymbol wSym).map UsageInfo.last_depth ≠ some 5
    := by
  exact ⟨rfl, by decide⟩

/-- C4 amended: a completed call sets the symbol's `last_depth` to the
current depth exactly when the masking condition (`last_depth` greater than
the current depth and a different mask id) held on entry — in that case
regardless of how many pending writes were marked; otherwise the whole state
is left unchanged. -/
theorem C4_last_depth_update (st st' : AState) (sym : Symbol)
    (info : UsageInfo) (d m : Nat)
    (hfind : alookup st.usageInfoBySymbol sym = some info)
    (h : ensureWritesAtLowerDepthAreMasked st sym d m = .ok st') :
    (info.last_depth > d ∧ info.last_maskId ≠ m →
      (alookup st'.usageInfoBySymbol sym).map UsageInfo.last_depth = some d) ∧
    (¬(info.last_depth > d ∧ info.last_maskId ≠ m) → st' = st) := by
  simp only [ensureWritesAtLowerDepthAreMasked, hfind] at h
  by_cases hcond : info.last_depth > d ∧ info.last_maskId ≠ m
  · rw [if_pos hcond] at h
    by_cases hne : info.potentially_unmasked_ops = []
    · rw [if_pos hne] at h
      exact absurd h (by simp)
    · rw [if_neg hne] at h
      injection h with h2
      subst h2
      constructor
      · intro _
        simp [alookup_aset_self]
      · intro hc
        exact absurd hcond hc
  · rw [if_neg hcond] at h
    injection h with h2
    subst h2
    exact ⟨fun hc => absurd hc hcond, fun _ => rfl⟩

/-- Witness for C4 (both branches): the `c2St` call (condition holds, depth
becomes 1) and the `c4St` call (condition fails, state unchanged). -/
theorem C4_witness :
    alookup c2St.usageInfoBySymbol wSym = some c2Info ∧
    ((c2Info.last_depth > 1 ∧ c2Info.last_maskId ≠ 0 →
      (alookup c2Res.usageInfoBySymbol wSym).map UsageInfo.last_depth
        = some 1) ∧
     (¬(c2Info.last_depth > 1 ∧ c2Info.last_maskId ≠ 0) → c2Res = c2St)) := by
  exact ⟨rfl, C4_last_depth_update c2St c2Res wSym c2Info 1 0 rfl rfl⟩

/-! ## Claim C10 -/

/-- C10: the assertion that the pending list is non-empty DOES fail on a
reachable state: in `exC10` (`if (c1) { if (c2) { x = k }; y = x }; z = x`)
the read of `x` at depth 1 marks and empties its pending list but leaves
`last_maskId` at the depth-2 mask; the later read of `x` at depth 0 under the
main mask then finds `last_depth = 1 > 0` with a different mask id and an
empty pending list, and the analysis aborts through the assertion. -/
theorem C10_assert_fires :
    discoverVaryingAndMaskingOfLayer exC10 {} 20 = .error .assertPendingEmpty
    := by
  rfl

/-! ## Claim C8 -/

/-- C8 counterexample: in `exC8` (`if (c) { while (c) { if (d) break } }`)
the enclosing-condition stack at the `break` is `[c, c, d]` and the innermost
loop-condition entry is the second `c`; the only condition strictly above it
is `d`, so the claim predicts exactly the edge `(d, c)`.  The code instead
walks from the FIRST occurrence of `c` and also inserts the edge `(c, c)`,
an edge from a condition at-or-below the loop-condition. -/
theorem C8_counterexample :
    (discoverVaryingAndMaskingOfLayer exC8 {} 20).map
        (fun st => st.symbolFeedForwardMap) =
      .ok [(condC, condC), (condD, condC)] ∧
    ([(condC, condC), (condD, condC)] : List (Symbol × Symbol)) ≠
      [(condD, condC)] := by
  exact ⟨rfl, by decide⟩

/-- C8 amended: a completed `break` step appends to the feed-forward map one
edge to the loop condition from each symbol that follows the FIRST occurrence
of the loop-condition symbol on the enclosing-condition stack (this is
"strictly above the innermost loop-condition" whenever the loop-condition
symbol occurs only once on that stack), records `(writeBlockDepth, opIndex)`
as a pending write on the loop condition's usage info, and changes no other
symbol's usage info and no masking flag. -/
theorem C8_break_edges_after_first_occurrence (st st' : AState) (L : Symbol)
    (i wbd wm op : Nat)
    (hL : st.loopControlFlowSymbolStack.getLast? = some L)
    (hfind : st.symbolsCurrentBlockDependsOn.findIdx? (fun c => c == L)
      = some i)
    (h : processBreakOp st wbd wm op = .ok st') :
    st'.symbolFeedForwardMap = st.symbolFeedForwardMap ++
      (st.symbolsCurrentBlockDependsOn.drop (i + 1)).map (fun c => (c, L)) ∧
    (alookup st'.usageInfoBySymbol L).map UsageInfo.potentially_unmasked_ops
      = some (((alookup st.usageInfoBySymbol L).getD
          {}).potentially_unmasked_ops ++ [(wbd, op)]) ∧
    (∀ s, s ≠ L →
        alookup st'.usageInfoBySymbol s = alookup st.usageInfoBySymbol s) ∧
    st'.requires_masking = st.requires_masking ∧
    st'.is_uniform_by_symbol = st.is_uniform_by_symbol := by
  simp only [processBreakOp, hL, hfind] at h
  injection h with h2
  subst h2
  refine ⟨rfl, ?_, fun s hs => alookup_aset_ne _ _ _ _ hs, rfl, rfl⟩
  by_cases hcond : wbd > ((alookup st.usageInfoBySymbol L).getD {}).last_depth
  · simp [alookup_aset_self, hcond]
  · simp [alookup_aset_self, hcond]

/-- Witness for C8 at the state reached by `exC8` just before its break op:
stacks `[c, c, d]` and `[c]`, first occurrence of `c` at index 0, so edges
are added from `c` and `d`. -/
theorem C8_witness :
    (({ symbolsCurrentBlockDependsOn := [condC, condC, condD],
        loopControlFlowSymbolStack := [condC] } :
          AState).loopControlFlowSymbolStack.getLast? = some condC) ∧
    (({ symbolsCurrentBlockDependsOn := [condC, condC, condD],
        loopControlFlowSymbolStack := [condC] } :
          AState).symbolsCurrentBlockDependsOn.findIdx?
            (fun c => c == condC) = some 0) ∧
    (({ symbolsCurrentBlockDependsOn := [condC, condC, condD],
        loopControlFlowSymbolStack := [condC],
        symbolFeedForwardMap := [],
        usageInfoBySymbol := [],
        is_uniform_by_symbol := [], requires_masking := [] } :
          AState).symbolFeedForwardMap ++
        ([condC, condC, condD].drop 1).map (fun c => (c, condC))
      = [(condC, condC), (condD, condC)]) := by
  refine ⟨rfl, by decide, ?_⟩
  have h := C8_break_edges_after_first_occurrence
    { symbolsCurrentBlockDependsOn := [condC, condC, condD],
      loopControlFlowSymbolStack := [condC] }
    { symbolsCurrentBlockDependsOn := [condC, condC, condD],
      loopControlFlowSymbolStack := [condC],
      symbolFeedForwardMap := [(condC, condC), (condD, condC)],
      usageInfoBySymbol :=
        [(condC, { last_depth := 3, last_maskId := 3,
                   potentially_unmasked_ops := [(3, 3)] })] }
    condC 0 3 3 3 rfl (by decide) rfl
  exact h.1.symm

/-! ## Claim C5 (counterexample part) -/

/-- C5 counterexample: analyzing the one-op layer `exC5` from a fresh state
succeeds and produces the tables `exC5Tables` (masking vector of length 1),
but invoking `discoverVaryingAndMaskingOfLayer` again for the same layer
fails the emptiness assertion on the layer's masking vector rather than
succeeding with identical tables. -/
theorem C5_counterexample :
    (discoverVaryingAndMaskingOfLayer exC5 {} 10).map tablesOf
      = .ok exC5Tables ∧
    discoverVaryingAndMaskingOfLayer exC5 exC5Tables 10
      = .error .assertRequiresMaskingNotEmpty := by
  exact ⟨rfl, rfl⟩

end OSLWide
